import Mathlib

/-!
Verification of the FocusEngine spatial-navigation core.

This file gives a shallow embedding of the engine implemented in the
repository's `FocusEngine` class (the navigation-core variant with
programmatic `triggerArrow*` / `triggerEnter` / `triggerBack` entry points)
and proves properties of the embedded definitions.

Modelling conventions:
* JavaScript numbers are modelled as exact rationals (`ℚ`); the literals
  `0.3`, `0.8`, `1.5` of the source become `3/10`, `4/5`, `3/2`.
* A DOM element is a `Region`: a stable identity (`id : Nat`, playing the
  role of reference identity, so the source's `===` becomes `Region.same`),
  its bounding rectangle, its visibility (`visible` models
  `offsetParent !== null`, `styleVisible` models the computed-style
  display/visibility/opacity check), and its two resolved data attributes
  (`getAttribute` results): `parentAttr` and `childAttr`.  `none` models a
  `null` attribute; the empty string (falsy in JS) is handled by
  `attrTruthy`.
* The mutable engine object together with the relevant host state
  (`document.activeElement`, CSS classes, registered focus listeners, the
  `onSelect` callback) is an `EngineState`.  Calling `element.focus()` is
  `focusEl`: it moves host focus and, when the engine registered a focus
  listener for that element, runs the listener exactly as the source's
  closure does (with its captured element and captured index).
* `console.log`/`console.error` and the inline `style.transform` visual
  effect are presentation-only and are not modelled; `try/catch` around
  `focus()` is dropped because the modelled `focus` is total.
-/

unseal Rat.add Rat.mul Rat.sub Rat.inv

/-- Axis-aligned bounding rectangle, as returned by `getBoundingClientRect`. -/
structure Rect where
  left : ℚ
  top : ℚ
  right : ℚ
  bottom : ℚ
deriving DecidableEq, Repr

/-- `DOMRect.width`. -/
def Rect.width (r : Rect) : ℚ := r.right - r.left

/-- `DOMRect.height`. -/
def Rect.height (r : Rect) : ℚ := r.bottom - r.top

/-- A well-formed bounding box: non-negative extents.  Every rectangle the
host can hand to the engine (`getBoundingClientRect`) satisfies this. -/
def Rect.WF (r : Rect) : Prop := r.left ≤ r.right ∧ r.top ≤ r.bottom

instance (r : Rect) : Decidable r.WF := by unfold Rect.WF; infer_instance

/-- A point with x and y coordinates. -/
structure Point where
  x : ℚ
  y : ℚ
deriving DecidableEq, Repr

/-- The four navigation directions. -/
inductive Direction where
  | arrowUp
  | arrowDown
  | arrowLeft
  | arrowRight
deriving DecidableEq, Repr

/-- Position of parents relative to their children. -/
inductive ParentPosition where
  | left
  | right
deriving DecidableEq, Repr

/-- A focusable element as the engine sees it. -/
structure Region where
  id : Nat
  rect : Rect
  visible : Bool
  styleVisible : Bool
  parentAttr : Option String
  childAttr : Option String
deriving DecidableEq, Repr

/-- Reference identity of elements (the source's `===` on elements). -/
def Region.same (a b : Region) : Bool := a.id == b.id

/-- JS truthiness of a `getAttribute` result: `null` and `""` are falsy. -/
def attrTruthy : Option String → Bool
  | none => false
  | some s => s != ""

/-- JS strict equality between a `getAttribute` result and a string. -/
def attrEq (o : Option String) (s : String) : Bool := o == some s

/-- `Array.prototype.indexOf` over the region list (reference identity),
`-1` when absent. -/
def idxOf (l : List Region) (r : Region) : Int :=
  match l.findIdx? (fun el => el.same r) with
  | some i => (i : Int)
  | none => -1

/-- `getCenter`: the center point of a rectangle. -/
def getCenter (rect : Rect) : Point :=
  { x := rect.left + rect.width / 2, y := rect.top + rect.height / 2 }

/-- `getProjection`: the candidate's center projected onto the current
rectangle's extent on the cross axis. -/
def getProjection (currentRect : Rect) (candidateRect : Rect)
    (direction : Direction) : ℚ :=
  let candidateCenter := getCenter candidateRect
  match direction with
  | Direction.arrowUp | Direction.arrowDown =>
    if candidateCenter.x < currentRect.left then currentRect.left
    else if currentRect.right < candidateCenter.x then currentRect.right
    else candidateCenter.x
  | Direction.arrowLeft | Direction.arrowRight =>
    if candidateCenter.y < currentRect.top then currentRect.top
    else if currentRect.bottom < candidateCenter.y then currentRect.bottom
    else candidateCenter.y

/-- The suitability test and distance computed for one candidate inside the
`findNextFocusable` loop: `none` when `isSuitable` stays false, otherwise
the final distance (after the alignment bonus and the projection penalty). -/
def candidateScore (currentRect : Rect) (direction : Direction)
    (candidateRect : Rect) : Option ℚ :=
  let currentCenter := getCenter currentRect
  let candidateCenter := getCenter candidateRect
  let dx := candidateCenter.x - currentCenter.x
  let dy := candidateCenter.y - currentCenter.y
  let base : Option ℚ :=
    match direction with
    | Direction.arrowUp =>
      if dy < 0 ∧ currentRect.left < candidateRect.right ∧
          candidateRect.left < currentRect.right then
        let d0 := |dy| + |dx| * (3 / 10)
        some (if |dx| < min currentRect.width candidateRect.width / 4 then
          d0 * (4 / 5) else d0)
      else none
    | Direction.arrowDown =>
      if 0 < dy ∧ currentRect.left < candidateRect.right ∧
          candidateRect.left < currentRect.right then
        let d0 := |dy| + |dx| * (3 / 10)
        some (if |dx| < min currentRect.width candidateRect.width / 4 then
          d0 * (4 / 5) else d0)
      else none
    | Direction.arrowLeft =>
      if dx < 0 ∧ currentRect.top < candidateRect.bottom ∧
          candidateRect.top < currentRect.bottom then
        let d0 := |dx| + |dy| * (3 / 10)
        some (if |dy| < min currentRect.height candidateRect.height / 4 then
          d0 * (4 / 5) else d0)
      else none
    | Direction.arrowRight =>
      if 0 < dx ∧ currentRect.top < candidateRect.bottom ∧
          candidateRect.top < currentRect.bottom then
        let d0 := |dx| + |dy| * (3 / 10)
        some (if |dy| < min currentRect.height candidateRect.height / 4 then
          d0 * (4 / 5) else d0)
      else none
  match base with
  | none => none
  | some d =>
    let projectionPoint := getProjection currentRect candidateRect direction
    let projectionOnCandidateAxis : Bool :=
      match direction with
      | Direction.arrowUp | Direction.arrowDown =>
        decide (candidateRect.left ≤ projectionPoint) &&
        decide (projectionPoint ≤ candidateRect.right)
      | Direction.arrowLeft | Direction.arrowRight =>
        decide (candidateRect.top ≤ projectionPoint) &&
        decide (projectionPoint ≤ candidateRect.bottom)
    if projectionOnCandidateAxis then some d else some (d * (3 / 2))

/-- The `forEach` accumulation of `findNextFocusable`: keep the first
candidate whose score is strictly below the running minimum
(`isSuitable && distance < minDistance`). -/
def selectBest (score : Region → Option ℚ) :
    Option (Region × ℚ) → List Region → Option (Region × ℚ)
  | acc, [] => acc
  | acc, c :: cs =>
    selectBest score
      (match score c with
       | none => acc
       | some d =>
         match acc with
         | none => some (c, d)
         | some (b, m) => if d < m then some (c, d) else some (b, m)) cs

/-- `findNextFocusable`: the best next element in the given direction, or
`none`. -/
def findNextFocusable (elements : List Region) (currentElement : Region)
    (direction : Direction) : Option Region :=
  let visibleFocusableElements :=
    elements.filter (fun el => !(el.same currentElement) && el.visible)
  (selectBest (fun cand => candidateScore currentElement.rect direction cand.rect)
      none visibleFocusableElements).map Prod.fst

/-! The engine state and the stateful operations.  `EngineState` bundles the
mutable fields of the `FocusEngine` object with the host-side state the
engine observes and mutates: `hostFocus` models `document.activeElement`
(`none` when focus is on the body or nowhere), `decorated` the set of
element ids currently carrying `focusClassName`, `focusEventHandlers` the
focus listeners the engine attached (each closure captures the element and
its index at attach time), and `onSelectLog` the arguments of the `onSelect`
callback invocations, in order. -/

/-- The engine object plus observed host state. -/
structure EngineState where
  focusableElements : List Region
  currentFocusIndex : Int
  activeElement : Option Region
  previouslyFocused : Option Region
  lastParentMap : List (String × Region)
  focusEventHandlers : List (Region × Nat)
  initialized : Bool
  parentPosition : ParentPosition
  hostFocus : Option Region
  decorated : List Nat
  onSelectLog : List Nat
deriving DecidableEq, Repr

/-- `Map.get`. -/
def mapGet (m : List (String × Region)) (k : String) : Option Region :=
  (m.find? (fun p => p.1 == k)).map Prod.snd

/-- `Map.has`. -/
def mapHas (m : List (String × Region)) (k : String) : Bool :=
  m.any (fun p => p.1 == k)

/-- `Map.set`: replace the value at an existing key in place, else append. -/
def mapSet (m : List (String × Region)) (k : String) (v : Region) :
    List (String × Region) :=
  if mapHas m k then m.map (fun p => if p.1 == k then (k, v) else p)
  else m ++ [(k, v)]

/-- `updateFocusClass`: drop the decoration from the previously decorated
element (when different), decorate the new one, and record it as both
`previouslyFocusedElement` and `activeElement`. -/
def updateFocusClass (s : EngineState) (element : Region) : EngineState :=
  let s :=
    match s.previouslyFocused with
    | some p =>
      if p.same element then s
      else { s with decorated := s.decorated.filter (fun i => i != p.id) }
    | none => s
  { s with
    decorated := if s.decorated.contains element.id then s.decorated
                 else element.id :: s.decorated,
    previouslyFocused := some element,
    activeElement := some element }

/-- The focus listener attached in `updateFocusableElements`, run with its
captured element and captured index. -/
def runFocusHandler (s : EngineState) (captured : Region) (index : Nat) :
    EngineState :=
  let s := { s with currentFocusIndex := (index : Int) }
  let s := updateFocusClass s captured
  match captured.childAttr with
  | some childOfValue =>
    if childOfValue != "" then
      { s with lastParentMap := mapSet s.lastParentMap childOfValue captured }
    else s
  | none => s

/-- `element.focus()`: move host focus to the element; when it was not the
focused element already, the focus event fires and runs the attached
listener, if any. -/
def focusEl (s : EngineState) (element : Region) : EngineState :=
  let alreadyFocused :=
    match s.hostFocus with
    | some f => f.same element
    | none => false
  if alreadyFocused then s
  else
    let s := { s with hostFocus := some element }
    match s.focusEventHandlers.find? (fun p => p.1.same element) with
    | some (captured, index) => runFocusHandler s captured index
    | none => s

/-- The focus-move commit sequence the engine repeats after picking a target:
`target.focus(); currentFocusIndex = indexOf(target); updateFocusClass(target)`. -/
def focusAndCommit (s : EngineState) (target : Region) : EngineState :=
  let s := focusEl s target
  let s := { s with currentFocusIndex := idxOf s.focusableElements target }
  updateFocusClass s target

/-- `focusChild`: focus the remembered last-visited child when it is still
among the candidate children, else the first candidate; record it in the
Last-Visited-Child map. -/
def focusChild (s : EngineState) (childElements : List Region)
    (parentId : String) : EngineState × Bool :=
  let lastVisitedChild := mapGet s.lastParentMap parentId
  let targetChild : Option Region :=
    match lastVisitedChild with
    | some c =>
      if childElements.any (fun el => el.same c) then some c
      else childElements.head?
    | none => childElements.head?
  match targetChild with
  | none => (s, false)
  | some t =>
    if t.visible then
      let s := focusAndCommit s t
      ({ s with lastParentMap := mapSet s.lastParentMap parentId t }, true)
    else (s, false)

/-- `navigateToChildren`: find this parent's visible children (with a
computed-style check, falling back to the plain visibility check when the
strict filter is empty) and focus one of them. -/
def navigateToChildren (s : EngineState) (parentElement : Region) :
    EngineState × Bool :=
  match parentElement.parentAttr with
  | none => (s, false)
  | some parentId =>
    if parentId == "" then (s, false)
    else
      let childElements := s.focusableElements.filter (fun el =>
        attrEq el.childAttr parentId && el.visible && el.styleVisible)
      if childElements.isEmpty then
        let fallbackChildren := s.focusableElements.filter (fun el =>
          attrEq el.childAttr parentId && el.visible)
        if fallbackChildren.isEmpty then (s, false)
        else focusChild s fallbackChildren parentId
      else focusChild s childElements parentId

/-- `shouldNavigateToChildren`: drill-in applies on the drill direction of
the configured parent side, on a group head with a visible child whose
first child sits on the configured side of the head (5-unit tolerance). -/
def shouldNavigateToChildren (pos : ParentPosition) (elements : List Region)
    (currentElement : Region) (direction : Direction) : Bool :=
  let navDirection : Direction :=
    match pos with
    | ParentPosition.left => Direction.arrowRight
    | ParentPosition.right => Direction.arrowLeft
  if direction != navDirection then false
  else
    match currentElement.parentAttr with
    | none => false
    | some parentId =>
      if parentId == "" then false
      else
        let childElements := elements.filter (fun el =>
          attrEq el.childAttr parentId && el.visible)
        match childElements with
        | [] => false
        | firstChild :: _ =>
          let parentRect := currentElement.rect
          let childRect := firstChild.rect
          match pos with
          | ParentPosition.left => decide (parentRect.right - 5 ≤ childRect.left)
          | ParentPosition.right => decide (childRect.right ≤ parentRect.left + 5)

/-- `isElementAtLeftEdge`: no visible sibling lies to the left of the
element within its row. -/
def isElementAtLeftEdge (element : Region) (siblingGroup : List Region) :
    Bool :=
  if siblingGroup.length ≤ 1 then true
  else
    let hasLeftSibling := siblingGroup.any (fun sibling =>
      !(sibling.same element) &&
      decide (sibling.rect.right ≤ element.rect.left) &&
      decide (element.rect.top < sibling.rect.bottom) &&
      decide (sibling.rect.top < element.rect.bottom))
    !hasLeftSibling

/-- `isElementAtRightEdge`: no visible sibling lies to the right of the
element within its row. -/
def isElementAtRightEdge (element : Region) (siblingGroup : List Region) :
    Bool :=
  if siblingGroup.length ≤ 1 then true
  else
    let hasRightSibling := siblingGroup.any (fun sibling =>
      !(sibling.same element) &&
      decide (element.rect.right ≤ sibling.rect.left) &&
      decide (element.rect.top < sibling.rect.bottom) &&
      decide (sibling.rect.top < element.rect.bottom))
    !hasRightSibling

/-- `shouldNavigateToParent`: escape applies on the escape direction of the
configured parent side, when the element is at the matching edge of its
visible sibling group and the first visible group head lies on the
configured side of it. -/
def shouldNavigateToParent (pos : ParentPosition) (elements : List Region)
    (currentElement : Region) (direction : Direction) (parentId : String) :
    Bool :=
  let navDirection : Direction :=
    match pos with
    | ParentPosition.left => Direction.arrowLeft
    | ParentPosition.right => Direction.arrowRight
  if direction != navDirection then false
  else
    let siblingsWithSameParent := elements.filter (fun el =>
      attrEq el.childAttr parentId && el.visible)
    let isAtEdge : Bool :=
      match pos with
      | ParentPosition.left =>
        isElementAtLeftEdge currentElement siblingsWithSameParent
      | ParentPosition.right =>
        isElementAtRightEdge currentElement siblingsWithSameParent
    if !isAtEdge then false
    else
      let parentElements := elements.filter (fun el =>
        attrEq el.parentAttr parentId && el.visible)
      match parentElements with
      | [] => false
      | parentElement :: _ =>
        match pos with
        | ParentPosition.left =>
          decide (parentElement.rect.right ≤ currentElement.rect.left)
        | ParentPosition.right =>
          decide (currentElement.rect.right ≤ parentElement.rect.left)

/-- `checkParentNavigation`: when escape applies, the element to focus is
the first region carrying the matching parent key (without a visibility
filter at this point). -/
def checkParentNavigation (pos : ParentPosition) (elements : List Region)
    (currentElement : Region) (direction : Direction) : Option Region :=
  match currentElement.childAttr with
  | none => none
  | some childOfValue =>
    if childOfValue == "" then none
    else
      let parentElements := elements.filter (fun el =>
        attrEq el.parentAttr childOfValue)
      match parentElements with
      | [] => none
      | p :: _ =>
        if shouldNavigateToParent pos elements currentElement direction
            childOfValue then some p
        else none

/-- `handleDirectionalNavigation`: drill-in check, then escape check, then
spatial search. -/
def handleDirectionalNavigation (s : EngineState)
    (currentElement : Option Region) (direction : Direction) : EngineState :=
  let startElement : Option Region :=
    match currentElement with
    | some c =>
      if s.focusableElements.any (fun el => el.same c) then some c
      else s.focusableElements.find? (fun el => el.visible)
    | none => s.focusableElements.find? (fun el => el.visible)
  match startElement with
  | none => s
  | some start =>
    let afterChildren : EngineState × Bool :=
      if shouldNavigateToChildren s.parentPosition s.focusableElements start
          direction then
        navigateToChildren s start
      else (s, false)
    if afterChildren.2 then afterChildren.1
    else
      let s := afterChildren.1
      match checkParentNavigation s.parentPosition s.focusableElements start
          direction with
      | some parentElement => focusAndCommit s parentElement
      | none =>
        match findNextFocusable s.focusableElements start direction with
        | some nextElement => focusAndCommit s nextElement
        | none => s

/-- The effective current element of every public command:
`this.activeElement || document.activeElement`. -/
def resolveCurrent (s : EngineState) : Option Region :=
  match s.activeElement with
  | some a => some a
  | none => s.hostFocus

/-- `triggerArrowUp`. -/
def triggerArrowUp (s : EngineState) : EngineState :=
  handleDirectionalNavigation s (resolveCurrent s) Direction.arrowUp

/-- `triggerArrowDown`. -/
def triggerArrowDown (s : EngineState) : EngineState :=
  handleDirectionalNavigation s (resolveCurrent s) Direction.arrowDown

/-- `triggerArrowLeft`. -/
def triggerArrowLeft (s : EngineState) : EngineState :=
  handleDirectionalNavigation s (resolveCurrent s) Direction.arrowLeft

/-- `triggerArrowRight`. -/
def triggerArrowRight (s : EngineState) : EngineState :=
  handleDirectionalNavigation s (resolveCurrent s) Direction.arrowRight

/-- `handleEnterKey`: on a member element, first try to drill into children;
only when that did not navigate, invoke the host `onSelect` callback.  (The
transient `style.transform` visual effect is presentation-only and not
modelled.) -/
def handleEnterKey (s : EngineState) (currentElement : Option Region) :
    EngineState :=
  match currentElement with
  | none => s
  | some cur =>
    if s.focusableElements.any (fun el => el.same cur) then
      let r := navigateToChildren s cur
      if !r.2 then { r.1 with onSelectLog := r.1.onSelectLog ++ [cur.id] }
      else r.1
    else s

/-- `triggerEnter`. -/
def triggerEnter (s : EngineState) : EngineState :=
  handleEnterKey s (resolveCurrent s)

/-- `triggerBack`: focus the first visible region carrying the current
child's group key; no edge or side conditions are checked here. -/
def triggerBack (s : EngineState) : EngineState :=
  match resolveCurrent s with
  | none => s
  | some cur =>
    if !(s.focusableElements.any (fun el => el.same cur)) then s
    else
      match cur.childAttr with
      | none => s
      | some childOfValue =>
        if childOfValue == "" then s
        else
          let parentElements := s.focusableElements.filter (fun el =>
            attrEq el.parentAttr childOfValue && el.visible)
          match parentElements with
          | [] => s
          | p :: _ => focusAndCommit s p

/-- `updateParentChildRelationships`: seed the Last-Visited-Child map with
each group's first child when no entry exists yet. -/
def updateParentChildRelationships (s : EngineState) : EngineState :=
  let parentElements := s.focusableElements.filter (fun el =>
    el.parentAttr.isSome)
  parentElements.foldl (fun s parentEl =>
    match parentEl.parentAttr with
    | none => s
    | some parentId =>
      if parentId == "" then s
      else
        let childElements := s.focusableElements.filter (fun el =>
          attrEq el.childAttr parentId)
        match childElements with
        | [] => s
        | c :: _ =>
          if mapHas s.lastParentMap parentId then s
          else { s with lastParentMap := mapSet s.lastParentMap parentId c })
    s

/-- `updateFocusableElements`: replace the Region Set with the host's fresh
query result, re-attach the focus listeners (capturing each element and its
new index), re-apply the decoration to an element that already holds host
focus, and re-derive default Last-Visited-Child entries.
`currentFocusIndex` is not touched. -/
def updateFocusableElements (s : EngineState) (queried : List Region) :
    EngineState :=
  let s := { s with focusEventHandlers := [] }
  let s := { s with focusableElements := queried }
  let s := { s with
    focusEventHandlers := queried.enum.map
      (fun (p : Nat × Region) => (p.2, p.1)) }
  let s :=
    match s.hostFocus with
    | some f =>
      match queried.find? (fun el => el.same f) with
      | some el => updateFocusClass s el
      | none => s
    | none => s
  updateParentChildRelationships s

/-- `destroy`: detach the focus listeners, undo the decoration of the last
decorated element, clear `activeElement`, drop the initialized flag and the
Last-Visited-Child map.  The Region Set, `currentFocusIndex` and host focus
are left as they are. -/
def destroy (s : EngineState) : EngineState :=
  let s := { s with focusEventHandlers := [] }
  let s :=
    match s.previouslyFocused with
    | some p =>
      { s with decorated := s.decorated.filter (fun i => i != p.id),
               previouslyFocused := none }
    | none => s
  let s := { s with activeElement := none }
  let s := { s with initialized := false }
  { s with lastParentMap := [] }

/-! Concrete regions of the reference grid layout (all visible leaves). -/

/-- Grid region item1, local box (0,0)-(100,100). -/
def item1 : Region :=
  { id := 1, rect := { left := 0, top := 0, right := 100, bottom := 100 },
    visible := true, styleVisible := true, parentAttr := none, childAttr := none }

/-- Grid region item2, local box (120,0)-(220,100). -/
def item2 : Region :=
  { id := 2, rect := { left := 120, top := 0, right := 220, bottom := 100 },
    visible := true, styleVisible := true, parentAttr := none, childAttr := none }

/-- Grid region item3, local box (0,120)-(100,220). -/
def item3 : Region :=
  { id := 3, rect := { left := 0, top := 120, right := 100, bottom := 220 },
    visible := true, styleVisible := true, parentAttr := none, childAttr := none }

/-- Grid region item4, local box (120,120)-(220,220). -/
def item4 : Region :=
  { id := 4, rect := { left := 120, top := 120, right := 220, bottom := 220 },
    visible := true, styleVisible := true, parentAttr := none, childAttr := none }

/-- The reference grid as a Region Set. -/
def gridElems : List Region := [item1, item2, item3, item4]

/-- A group head with key `g`, box (0,0)-(80,100). -/
def gHead : Region :=
  { id := 10, rect := { left := 0, top := 0, right := 80, bottom := 100 },
    visible := true, styleVisible := true, parentAttr := some "g",
    childAttr := none }

/-- First child of group `g`, box (100,0)-(200,100). -/
def gChild1 : Region :=
  { id := 11, rect := { left := 100, top := 0, right := 200, bottom := 100 },
    visible := true, styleVisible := true, parentAttr := none,
    childAttr := some "g" }

/-- Second child of group `g`, box (220,0)-(320,100). -/
def gChild2 : Region :=
  { id := 12, rect := { left := 220, top := 0, right := 320, bottom := 100 },
    visible := true, styleVisible := true, parentAttr := none,
    childAttr := some "g" }

/-- Region Set with one group: head and two children in one row. -/
def groupElems : List Region := [gHead, gChild1, gChild2]

/-- An active engine over `groupElems`, focus on the group head, listeners
attached, empty Last-Visited-Child map. -/
def groupState : EngineState :=
  { focusableElements := groupElems,
    currentFocusIndex := 0,
    activeElement := some gHead,
    previouslyFocused := some gHead,
    lastParentMap := [],
    focusEventHandlers := [(gHead, 0), (gChild1, 1), (gChild2, 2)],
    initialized := true,
    parentPosition := ParentPosition.left,
    hostFocus := some gHead,
    decorated := [10],
    onSelectLog := [] }

/-- An active engine over two plain leaf regions, focus on the first. -/
def twoLeafState : EngineState :=
  { focusableElements := [item1, item2],
    currentFocusIndex := 0,
    activeElement := some item1,
    previouslyFocused := some item1,
    lastParentMap := [],
    focusEventHandlers := [(item1, 0), (item2, 1)],
    initialized := true,
    parentPosition := ParentPosition.left,
    hostFocus := some item1,
    decorated := [1],
    onSelectLog := [] }

/-- An active engine over `groupElems` with focus on the second child (which
has a visible sibling to its left, so it is not at the left edge). -/
def secondChildState : EngineState :=
  { focusableElements := groupElems,
    currentFocusIndex := 2,
    activeElement := some gChild2,
    previouslyFocused := some gChild2,
    lastParentMap := [],
    focusEventHandlers := [(gHead, 0), (gChild1, 1), (gChild2, 2)],
    initialized := true,
    parentPosition := ParentPosition.left,
    hostFocus := some gChild2,
    decorated := [12],
    onSelectLog := [] }

/-! Spec-side transcriptions used to state the correctness claims about
`findNextFocusable`: the eligibility test and the final distance as the
specification words them (primary-axis delta plus `0.3` times the
cross-axis delta, times `0.8` under the alignment bonus, with no projection
penalty). -/

/-- Spec-side eligibility on rectangles: the candidate center lies strictly
on the travel side and the rectangles overlap on the cross axis. -/
def spec_suitable (currentRect : Rect) (direction : Direction)
    (candidateRect : Rect) : Bool :=
  let dx := (getCenter candidateRect).x - (getCenter currentRect).x
  let dy := (getCenter candidateRect).y - (getCenter currentRect).y
  match direction with
  | Direction.arrowUp =>
    decide (dy < 0) && decide (currentRect.left < candidateRect.right) &&
    decide (candidateRect.left < currentRect.right)
  | Direction.arrowDown =>
    decide (0 < dy) && decide (currentRect.left < candidateRect.right) &&
    decide (candidateRect.left < currentRect.right)
  | Direction.arrowLeft =>
    decide (dx < 0) && decide (currentRect.top < candidateRect.bottom) &&
    decide (candidateRect.top < currentRect.bottom)
  | Direction.arrowRight =>
    decide (0 < dx) && decide (currentRect.top < candidateRect.bottom) &&
    decide (candidateRect.top < currentRect.bottom)

/-- Spec-side final distance: `|primary delta| + 0.3 * |cross delta|`,
multiplied by `0.8` when the cross delta is below a quarter of the smaller
cross extent.  No projection penalty. -/
def spec_finalDistance (currentRect : Rect) (direction : Direction)
    (candidateRect : Rect) : ℚ :=
  let dx := (getCenter candidateRect).x - (getCenter currentRect).x
  let dy := (getCenter candidateRect).y - (getCenter currentRect).y
  match direction with
  | Direction.arrowUp | Direction.arrowDown =>
    let base := |dy| + |dx| * (3 / 10)
    if |dx| < min currentRect.width candidateRect.width / 4 then
      base * (4 / 5)
    else base
  | Direction.arrowLeft | Direction.arrowRight =>
    let base := |dx| + |dy| * (3 / 10)
    if |dy| < min currentRect.height candidateRect.height / 4 then
      base * (4 / 5)
    else base

/-- Spec-side eligibility of a candidate region: not the current element,
visible, and suitable in the given direction. -/
def spec_eligible (current : Region) (direction : Direction) (el : Region) :
    Bool :=
  !(el.same current) && el.visible && spec_suitable current.rect direction el.rect

/-- The candidate score with the projection-penalty step removed: exactly
the suitability test and base distance (with alignment bonus) of
`candidateScore`. -/
def candidateScoreNoProjection (currentRect : Rect) (direction : Direction)
    (candidateRect : Rect) : Option ℚ :=
  let currentCenter := getCenter currentRect
  let candidateCenter := getCenter candidateRect
  let dx := candidateCenter.x - currentCenter.x
  let dy := candidateCenter.y - currentCenter.y
  match direction with
  | Direction.arrowUp =>
    if dy < 0 ∧ currentRect.left < candidateRect.right ∧
        candidateRect.left < currentRect.right then
      let d0 := |dy| + |dx| * (3 / 10)
      some (if |dx| < min currentRect.width candidateRect.width / 4 then
        d0 * (4 / 5) else d0)
    else none
  | Direction.arrowDown =>
    if 0 < dy ∧ currentRect.left < candidateRect.right ∧
        candidateRect.left < currentRect.right then
      let d0 := |dy| + |dx| * (3 / 10)
      some (if |dx| < min currentRect.width candidateRect.width / 4 then
        d0 * (4 / 5) else d0)
    else none
  | Direction.arrowLeft =>
    if dx < 0 ∧ currentRect.top < candidateRect.bottom ∧
        candidateRect.top < currentRect.bottom then
      let d0 := |dx| + |dy| * (3 / 10)
      some (if |dy| < min currentRect.height candidateRect.height / 4 then
        d0 * (4 / 5) else d0)
    else none
  | Direction.arrowRight =>
    if 0 < dx ∧ currentRect.top < candidateRect.bottom ∧
        candidateRect.top < currentRect.bottom then
      let d0 := |dx| + |dy| * (3 / 10)
      some (if |dy| < min currentRect.height candidateRect.height / 4 then
        d0 * (4 / 5) else d0)
    else none

/-- `findNextFocusable` with the projection-penalty step removed. -/
def findNextNoProjection (elements : List Region) (currentElement : Region)
    (direction : Direction) : Option Region :=
  let visibleFocusableElements :=
    elements.filter (fun el => !(el.same currentElement) && el.visible)
  (selectBest
      (fun cand => candidateScoreNoProjection currentElement.rect direction cand.rect)
      none visibleFocusableElements).map Prod.fst

/-- C8: on the reference grid (item1 (0,0)-(100,100), item2 (120,0)-(220,100),
item3 (0,120)-(100,220), item4 (120,120)-(220,220)), `findNext` from item1
going right yields item2, from item1 going down yields item3, and from item2
going down yields item4. -/
theorem claim8_grid_scenario :
    findNextFocusable gridElems item1 Direction.arrowRight = some item2 ∧
    findNextFocusable gridElems item1 Direction.arrowDown = some item3 ∧
    findNextFocusable gridElems item2 Direction.arrowDown = some item4 := by
  refine ⟨?_, ?_, ?_⟩ <;> decide

/-! Characterization of the `selectBest` fold: it returns `none` exactly
when nothing scores, and otherwise the first candidate attaining the
minimal score (a later candidate replaces the running best only on a
strictly smaller score). -/

lemma selectBest_none_iff (score : Region → Option ℚ) :
    ∀ (xs : List Region) (acc : Option (Region × ℚ)),
      selectBest score acc xs = none ↔
        acc = none ∧ ∀ x ∈ xs, score x = none := by
  intro xs
  induction xs with
  | nil => intro acc; simp [selectBest]
  | cons x t ih =>
    intro acc
    simp only [selectBest]
    rw [ih]
    cases hx : score x with
    | none =>
      constructor
      · rintro ⟨h1, h2⟩
        refine ⟨h1, fun y hy => ?_⟩
        rcases List.mem_cons.mp hy with rfl | hy
        · exact hx
        · exact h2 y hy
      · rintro ⟨h1, h2⟩
        exact ⟨h1, fun y hy => h2 y (List.mem_cons_of_mem x hy)⟩
    | some d =>
      have hne : (match acc with
          | none => some (x, d)
          | some (b, m) => if d < m then some (x, d) else some (b, m)) ≠
            none := by
        cases acc with
        | none => simp
        | some bm =>
          obtain ⟨b, m⟩ := bm
          dsimp only
          split <;> simp
      constructor
      · rintro ⟨h1, -⟩
        exact absurd h1 hne
      · rintro ⟨-, h2⟩
        have := h2 x (List.mem_cons_self x t)
        rw [hx] at this
        exact absurd this (by simp)

lemma selectBest_some (score : Region → Option ℚ) :
    ∀ (xs : List Region) (acc : Option (Region × ℚ)) (r : Region) (d : ℚ),
      selectBest score acc xs = some (r, d) →
      (acc = some (r, d) ∧ ∀ x ∈ xs, ∀ q, score x = some q → d ≤ q) ∨
      (∃ l1 l2, xs = l1 ++ r :: l2 ∧ score r = some d ∧
        (∀ b m, acc = some (b, m) → d < m) ∧
        (∀ x ∈ l1, ∀ q, score x = some q → d < q) ∧
        (∀ x ∈ l2, ∀ q, score x = some q → d ≤ q)) := by
  intro xs
  induction xs with
  | nil =>
    intro acc r d h
    simp only [selectBest] at h
    exact Or.inl ⟨h, by simp⟩
  | cons x t ih =>
    intro acc r d h
    simp only [selectBest] at h
    cases hx : score x with
    | none =>
      rw [hx] at h
      rcases ih _ _ _ h with ⟨hacc, hall⟩ | ⟨l1, l2, hsplit, hsc, hbnd, h1, h2⟩
      · refine Or.inl ⟨hacc, fun y hy q hq => ?_⟩
        rcases List.mem_cons.mp hy with rfl | hy
        · rw [hx] at hq; exact absurd hq (by simp)
        · exact hall y hy q hq
      · refine Or.inr ⟨x :: l1, l2, by rw [hsplit]; rfl, hsc, hbnd, ?_, h2⟩
        intro y hy q hq
        rcases List.mem_cons.mp hy with rfl | hy
        · rw [hx] at hq; exact absurd hq (by simp)
        · exact h1 y hy q hq
    | some d0 =>
      rw [hx] at h
      cases acc with
      | none =>
        simp only [] at h
        rcases ih _ _ _ h with ⟨hacc, hall⟩ | ⟨l1, l2, hsplit, hsc, hbnd, h1, h2⟩
        · have hx' : x = r ∧ d0 = d := by
            have := hacc
            simp only [Option.some.injEq, Prod.mk.injEq] at this
            exact this
          obtain ⟨rfl, rfl⟩ := hx'
          refine Or.inr ⟨[], t, rfl, hx, by simp, by simp, hall⟩
        · refine Or.inr ⟨x :: l1, l2, by rw [hsplit]; rfl, hsc, by simp, ?_, h2⟩
          intro y hy q hq
          rcases List.mem_cons.mp hy with rfl | hy
          · rw [hx] at hq
            have hq' : d0 = q := by
              simp only [Option.some.injEq] at hq; exact hq
            exact hq' ▸ hbnd y d0 rfl
          · exact h1 y hy q hq
      | some bm =>
        obtain ⟨b, m⟩ := bm
        simp only [] at h
        by_cases hdm : d0 < m
        · rw [if_pos hdm] at h
          rcases ih _ _ _ h with ⟨hacc, hall⟩ | ⟨l1, l2, hsplit, hsc, hbnd, h1, h2⟩
          · have hx' : x = r ∧ d0 = d := by
              simp only [Option.some.injEq, Prod.mk.injEq] at hacc
              exact hacc
            obtain ⟨rfl, rfl⟩ := hx'
            refine Or.inr ⟨[], t, rfl, hx, ?_, by simp, hall⟩
            intro b' m' hb
            simp only [Option.some.injEq, Prod.mk.injEq] at hb
            exact hb.2 ▸ hdm
          · have hdd0 : d < d0 := hbnd x d0 rfl
            refine Or.inr ⟨x :: l1, l2, by rw [hsplit]; rfl, hsc, ?_, ?_, h2⟩
            · intro b' m' hb
              simp only [Option.some.injEq, Prod.mk.injEq] at hb
              exact hb.2 ▸ lt_trans hdd0 hdm
            · intro y hy q hq
              rcases List.mem_cons.mp hy with rfl | hy
              · rw [hx] at hq
                simp only [Option.some.injEq] at hq
                exact hq ▸ hdd0
              · exact h1 y hy q hq
        · rw [if_neg hdm] at h
          have hmd0 : m ≤ d0 := le_of_not_lt hdm
          rcases ih _ _ _ h with ⟨hacc, hall⟩ | ⟨l1, l2, hsplit, hsc, hbnd, h1, h2⟩
          · have hx' : b = r ∧ m = d := by
              simp only [Option.some.injEq, Prod.mk.injEq] at hacc
              exact hacc
            obtain ⟨rfl, rfl⟩ := hx'
            refine Or.inl ⟨rfl, fun y hy q hq => ?_⟩
            rcases List.mem_cons.mp hy with rfl | hy
            · rw [hx] at hq
              simp only [Option.some.injEq] at hq
              exact hq ▸ hmd0
            · exact hall y hy q hq
          · have hdm' : d < m := hbnd b m rfl
            refine Or.inr ⟨x :: l1, l2, by rw [hsplit]; rfl, hsc, ?_, ?_, h2⟩
            · intro b' m' hb
              simp only [Option.some.injEq, Prod.mk.injEq] at hb
              exact hb.2 ▸ hdm'
            · intro y hy q hq
              rcases List.mem_cons.mp hy with rfl | hy
              · rw [hx] at hq
                simp only [Option.some.injEq] at hq
                exact hq ▸ lt_of_lt_of_le hdm' hmd0
              · exact h1 y hy q hq

lemma selectBest_from_none (score : Region → Option ℚ) (xs : List Region)
    (r : Region) (d : ℚ) (h : selectBest score none xs = some (r, d)) :
    ∃ l1 l2, xs = l1 ++ r :: l2 ∧ score r = some d ∧
      (∀ x ∈ l1, ∀ q, score x = some q → d < q) ∧
      (∀ x ∈ l2, ∀ q, score x = some q → d ≤ q) := by
  rcases selectBest_some score xs none r d h with ⟨hacc, -⟩ | ⟨l1, l2, h1, h2, -, h4, h5⟩
  · exact absurd hacc (by simp)
  · exact ⟨l1, l2, h1, h2, h4, h5⟩

lemma selectBest_congr (f g : Region → Option ℚ) :
    ∀ (xs : List Region) (acc : Option (Region × ℚ)),
      (∀ x ∈ xs, f x = g x) →
      selectBest f acc xs = selectBest g acc xs := by
  intro xs
  induction xs with
  | nil => intro acc h; rfl
  | cons x t ih =>
    intro acc h
    simp only [selectBest]
    rw [h x (List.mem_cons_self x t)]
    exact ih _ (fun y hy => h y (List.mem_cons_of_mem x hy))

/-! Pointwise characterization of the candidate score: for a well-formed
candidate rectangle the projected coordinate always lands inside the
candidate's cross-axis extent once the eligibility overlap holds, so the
penalty branch never fires and the score is exactly the spec-side final
distance of suitable candidates. -/

lemma center_x_mem (r : Rect) (h : r.left ≤ r.right) :
    r.left ≤ (getCenter r).x ∧ (getCenter r).x ≤ r.right := by
  unfold getCenter Rect.width
  dsimp only
  constructor <;> linarith

lemma center_y_mem (r : Rect) (h : r.top ≤ r.bottom) :
    r.top ≤ (getCenter r).y ∧ (getCenter r).y ≤ r.bottom := by
  unfold getCenter Rect.height
  dsimp only
  constructor <;> linarith

lemma getProjection_mem_ud (cur cand : Rect) (d : Direction)
    (hd : d = Direction.arrowUp ∨ d = Direction.arrowDown)
    (hk : cand.left ≤ cand.right)
    (h1 : cur.left < cand.right) (h2 : cand.left < cur.right) :
    cand.left ≤ getProjection cur cand d ∧
      getProjection cur cand d ≤ cand.right := by
  have hc := center_x_mem cand hk
  rcases hd with rfl | rfl <;>
  · unfold getProjection
    dsimp only
    split_ifs <;> constructor <;> linarith [hc.1, hc.2]

lemma getProjection_mem_lr (cur cand : Rect) (d : Direction)
    (hd : d = Direction.arrowLeft ∨ d = Direction.arrowRight)
    (hk : cand.top ≤ cand.bottom)
    (h1 : cur.top < cand.bottom) (h2 : cand.top < cur.bottom) :
    cand.top ≤ getProjection cur cand d ∧
      getProjection cur cand d ≤ cand.bottom := by
  have hc := center_y_mem cand hk
  rcases hd with rfl | rfl <;>
  · unfold getProjection
    dsimp only
    split_ifs <;> constructor <;> linarith [hc.1, hc.2]

lemma candidateScore_eq_noProjection (cur cand : Rect) (d : Direction)
    (hk : cand.WF) :
    candidateScore cur d cand = candidateScoreNoProjection cur d cand := by
  obtain ⟨hkx, hky⟩ := hk
  cases d with
  | arrowUp =>
    unfold candidateScore candidateScoreNoProjection
    dsimp only
    by_cases hcond : ((getCenter cand).y - (getCenter cur).y < 0 ∧
        cur.left < cand.right ∧ cand.left < cur.right)
    · rw [if_pos hcond]
      have hp := getProjection_mem_ud cur cand Direction.arrowUp (Or.inl rfl)
        hkx hcond.2.1 hcond.2.2
      simp [hp.1, hp.2]
    · rw [if_neg hcond]
  | arrowDown =>
    unfold candidateScore candidateScoreNoProjection
    dsimp only
    by_cases hcond : (0 < (getCenter cand).y - (getCenter cur).y ∧
        cur.left < cand.right ∧ cand.left < cur.right)
    · rw [if_pos hcond]
      have hp := getProjection_mem_ud cur cand Direction.arrowDown (Or.inr rfl)
        hkx hcond.2.1 hcond.2.2
      simp [hp.1, hp.2]
    · rw [if_neg hcond]
  | arrowLeft =>
    unfold candidateScore candidateScoreNoProjection
    dsimp only
    by_cases hcond : ((getCenter cand).x - (getCenter cur).x < 0 ∧
        cur.top < cand.bottom ∧ cand.top < cur.bottom)
    · rw [if_pos hcond]
      have hp := getProjection_mem_lr cur cand Direction.arrowLeft (Or.inl rfl)
        hky hcond.2.1 hcond.2.2
      simp [hp.1, hp.2]
    · rw [if_neg hcond]
  | arrowRight =>
    unfold candidateScore candidateScoreNoProjection
    dsimp only
    by_cases hcond : (0 < (getCenter cand).x - (getCenter cur).x ∧
        cur.top < cand.bottom ∧ cand.top < cur.bottom)
    · rw [if_pos hcond]
      have hp := getProjection_mem_lr cur cand Direction.arrowRight (Or.inr rfl)
        hky hcond.2.1 hcond.2.2
      simp [hp.1, hp.2]
    · rw [if_neg hcond]

lemma candidateScoreNoProjection_eq_spec (cur cand : Rect) (d : Direction) :
    candidateScoreNoProjection cur d cand =
      if spec_suitable cur d cand then some (spec_finalDistance cur d cand)
      else none := by
  cases d <;>
  · unfold candidateScoreNoProjection spec_suitable spec_finalDistance
    dsimp only
    split_ifs with h1 h2 h2 <;> first
      | rfl
      | (exact absurd (by simp_all) h2)
      | (exact absurd (of_decide_eq_true (by simp_all)) h1)

lemma candidateScore_eq_spec (cur cand : Rect) (d : Direction) (hk : cand.WF) :
    candidateScore cur d cand =
      if spec_suitable cur d cand then some (spec_finalDistance cur d cand)
      else none := by
  rw [candidateScore_eq_noProjection cur cand d hk,
    candidateScoreNoProjection_eq_spec]

lemma filter_split (p : Region → Bool) :
    ∀ (l l1 l2 : List Region) (r : Region),
      l.filter p = l1 ++ r :: l2 →
      ∃ m1 m2, l = m1 ++ r :: m2 ∧ m1.filter p = l1 ∧ m2.filter p = l2 := by
  intro l
  induction l with
  | nil =>
    intro l1 l2 r h
    rw [List.filter_nil] at h
    cases l1 <;> simp_all
  | cons x t ih =>
    intro l1 l2 r h
    rw [List.filter_cons] at h
    by_cases hx : p x = true
    · rw [if_pos hx] at h
      cases l1 with
      | nil =>
        simp only [List.nil_append] at h
        obtain ⟨rfl, hrest⟩ := List.cons.inj h
        exact ⟨[], t, rfl, rfl, hrest⟩
      | cons y l1t =>
        simp only [List.cons_append] at h
        obtain ⟨rfl, hrest⟩ := List.cons.inj h
        obtain ⟨m1, m2, rfl, hm1, hm2⟩ := ih l1t l2 r hrest
        exact ⟨x :: m1, m2, rfl, by rw [List.filter_cons, if_pos hx, hm1], hm2⟩
    · rw [if_neg hx] at h
      obtain ⟨m1, m2, rfl, hm1, hm2⟩ := ih l1 l2 r h
      exact ⟨x :: m1, m2, rfl, by rw [List.filter_cons, if_neg hx, hm1], hm2⟩

lemma spec_eligible_split (current el : Region) (direction : Direction) :
    spec_eligible current direction el =
      ((!(el.same current) && el.visible) &&
        spec_suitable current.rect direction el.rect) := by
  simp [spec_eligible, Bool.and_assoc]

/-- C1: `findNext` returns the eligible candidate with minimal final
distance — final distance being the primary-axis center delta plus `0.3`
times the cross-axis delta, times `0.8` under the alignment bonus —
breaking ties by Region Set order (first eligible minimum wins), and
returns `null` exactly when no candidate is eligible.  (Eligibility is:
not the current region, visible, strictly on the travel side and
overlapping on the cross axis.)  Stated for well-formed bounding boxes,
which is all `getBoundingClientRect` can produce; for such inputs the
source's projection-penalty multiplier is unreachable (see the C10
theorem), so the spec's penalty-free distance is exact. -/
theorem claim1_findNext_minimal
    (elements : List Region) (current : Region) (direction : Direction)
    (hall : ∀ el ∈ elements, el.rect.WF) :
    (findNextFocusable elements current direction = none ↔
      ∀ el ∈ elements, spec_eligible current direction el = false)
    ∧ (∀ r, findNextFocusable elements current direction = some r →
        spec_eligible current direction r = true ∧
        (∀ el ∈ elements, spec_eligible current direction el = true →
          spec_finalDistance current.rect direction r.rect ≤
            spec_finalDistance current.rect direction el.rect) ∧
        ∃ l1 l2, elements = l1 ++ r :: l2 ∧
          ∀ el ∈ l1, spec_eligible current direction el = true →
            spec_finalDistance current.rect direction r.rect <
              spec_finalDistance current.rect direction el.rect) := by
  have hscore_spec : ∀ el ∈ elements,
      candidateScore current.rect direction el.rect =
        if spec_suitable current.rect direction el.rect then
          some (spec_finalDistance current.rect direction el.rect)
        else none :=
    fun el hel => candidateScore_eq_spec _ _ _ (hall el hel)
  have hfind : findNextFocusable elements current direction =
      (selectBest (fun cand => candidateScore current.rect direction cand.rect)
        none (elements.filter (fun el => !(el.same current) && el.visible))).map
        Prod.fst := rfl
  constructor
  · rw [hfind, Option.map_eq_none', selectBest_none_iff]
    simp only [true_and]
    constructor
    · intro hnone el hel
      rw [spec_eligible_split]
      by_cases hpel : (!(el.same current) && el.visible) = true
      · have helf : el ∈ elements.filter
            (fun el => !(el.same current) && el.visible) :=
          List.mem_filter.mpr ⟨hel, hpel⟩
        have hsc := hnone el helf
        rw [hscore_spec el hel] at hsc
        by_cases hs : spec_suitable current.rect direction el.rect = true
        · rw [if_pos hs] at hsc
          exact absurd hsc (by simp)
        · simp [hs]
      · have h : (!(el.same current) && el.visible) = false := by
          revert hpel
          cases (!(el.same current) && el.visible) <;> simp
        rw [h, Bool.false_and]
    · intro helig x hx
      obtain ⟨hxmem, hxp⟩ := List.mem_filter.mp hx
      rw [hscore_spec x hxmem]
      have hx' := helig x hxmem
      rw [spec_eligible_split, hxp, Bool.true_and] at hx'
      rw [if_neg (by simp [hx'])]
  · intro r hr
    rw [hfind] at hr
    obtain ⟨⟨r0, d⟩, hsel, hfst⟩ := Option.map_eq_some'.mp hr
    subst hfst
    dsimp only
    obtain ⟨l1, l2, hsplit, hscr, hstrict, hweak⟩ :=
      selectBest_from_none _ _ r0 d hsel
    have hrfilter :
        r0 ∈ elements.filter (fun el => !(el.same current) && el.visible) := by
      rw [hsplit]
      exact List.mem_append_right _ (List.mem_cons_self r0 l2)
    obtain ⟨hrmem, hrp⟩ := List.mem_filter.mp hrfilter
    rw [hscore_spec r0 hrmem] at hscr
    have hrsuit : spec_suitable current.rect direction r0.rect = true := by
      by_cases hs : spec_suitable current.rect direction r0.rect = true
      · exact hs
      · rw [if_neg hs] at hscr
        exact absurd hscr (by simp)
    rw [if_pos hrsuit] at hscr
    have hd : d = spec_finalDistance current.rect direction r0.rect :=
      (Option.some.inj hscr).symm
    refine ⟨by rw [spec_eligible_split, hrp, hrsuit]; rfl, ?_, ?_⟩
    · intro el hel helig
      rw [spec_eligible_split, Bool.and_eq_true] at helig
      obtain ⟨hpel, hsuit⟩ := helig
      have helf : el ∈ elements.filter
          (fun el => !(el.same current) && el.visible) :=
        List.mem_filter.mpr ⟨hel, hpel⟩
      rw [hsplit] at helf
      have hsc : candidateScore current.rect direction el.rect =
          some (spec_finalDistance current.rect direction el.rect) := by
        rw [hscore_spec el hel, if_pos hsuit]
      rcases List.mem_append.mp helf with h1 | h2
      · exact le_of_lt (hd ▸ hstrict el h1 _ hsc)
      · rcases List.mem_cons.mp h2 with rfl | h2t
        · exact le_refl _
        · exact hd ▸ hweak el h2t _ hsc
    · obtain ⟨m1, m2, hm, hm1, hm2⟩ := filter_split _ elements l1 l2 r0 hsplit
      refine ⟨m1, m2, hm, ?_⟩
      intro el hel1 helig
      rw [spec_eligible_split, Bool.and_eq_true] at helig
      obtain ⟨hpel, hsuit⟩ := helig
      have hel : el ∈ elements := by
        rw [hm]; exact List.mem_append_left _ hel1
      have hell1 : el ∈ l1 := by
        rw [← hm1]; exact List.mem_filter.mpr ⟨hel1, hpel⟩
      have hsc : candidateScore current.rect direction el.rect =
          some (spec_finalDistance current.rect direction el.rect) := by
        rw [hscore_spec el hel, if_pos hsuit]
      exact hd ▸ hstrict el hell1 _ hsc

/-- C1 witness: the theorem applied to the concrete reference grid, current
region item1, direction right. -/
theorem claim1_witness :
    (∀ el ∈ gridElems, el.rect.WF) ∧
    ((findNextFocusable gridElems item1 Direction.arrowRight = none ↔
      ∀ el ∈ gridElems, spec_eligible item1 Direction.arrowRight el = false)
    ∧ (∀ r, findNextFocusable gridElems item1 Direction.arrowRight = some r →
        spec_eligible item1 Direction.arrowRight r = true ∧
        (∀ el ∈ gridElems, spec_eligible item1 Direction.arrowRight el = true →
          spec_finalDistance item1.rect Direction.arrowRight r.rect ≤
            spec_finalDistance item1.rect Direction.arrowRight el.rect) ∧
        ∃ l1 l2, gridElems = l1 ++ r :: l2 ∧
          ∀ el ∈ l1, spec_eligible item1 Direction.arrowRight el = true →
            spec_finalDistance item1.rect Direction.arrowRight r.rect <
              spec_finalDistance item1.rect Direction.arrowRight el.rect)) :=
  ⟨by decide, claim1_findNext_minimal gridElems item1 Direction.arrowRight
    (by decide)⟩

/-- C10:-for well-formed rectangles, a candidate that passes the cross-axis
overlap eligibility check always has its projection point (its center
clamped to the current rectangle's cross-axis extent) inside its own
cross-axis extent, so the `1.5x` projection-penalty branch is unreachable
for eligible candidates, and `findNext` is extensionally equal to the same
search with the projection-penalty step removed. -/
theorem claim10_projection_refinement :
    (∀ cur cand : Rect, cur.WF → cand.WF →
      ((cur.left < cand.right ∧ cand.left < cur.right →
        (cand.left ≤ getProjection cur cand Direction.arrowUp ∧
          getProjection cur cand Direction.arrowUp ≤ cand.right) ∧
        (cand.left ≤ getProjection cur cand Direction.arrowDown ∧
          getProjection cur cand Direction.arrowDown ≤ cand.right)) ∧
       (cur.top < cand.bottom ∧ cand.top < cur.bottom →
        (cand.top ≤ getProjection cur cand Direction.arrowLeft ∧
          getProjection cur cand Direction.arrowLeft ≤ cand.bottom) ∧
        (cand.top ≤ getProjection cur cand Direction.arrowRight ∧
          getProjection cur cand Direction.arrowRight ≤ cand.bottom))))
    ∧ (∀ (elements : List Region) (current : Region) (direction : Direction),
        (∀ el ∈ elements, el.rect.WF) →
        findNextFocusable elements current direction =
          findNextNoProjection elements current direction) := by
  constructor
  · intro cur cand _ hk
    refine ⟨fun h => ⟨?_, ?_⟩, fun h => ⟨?_, ?_⟩⟩
    · exact getProjection_mem_ud cur cand _ (Or.inl rfl) hk.1 h.1 h.2
    · exact getProjection_mem_ud cur cand _ (Or.inr rfl) hk.1 h.1 h.2
    · exact getProjection_mem_lr cur cand _ (Or.inl rfl) hk.2 h.1 h.2
    · exact getProjection_mem_lr cur cand _ (Or.inr rfl) hk.2 h.1 h.2
  · intro elements current direction hall
    simp only [findNextFocusable, findNextNoProjection]
    rw [selectBest_congr
      (fun cand => candidateScore current.rect direction cand.rect)
      (fun cand => candidateScoreNoProjection current.rect direction cand.rect)
      _ none
      (fun x hx => candidateScore_eq_noProjection _ _ _
        (hall x (List.mem_filter.mp hx).1))]

/-- C10 witness: the extensional-equality half applied to the concrete
reference grid. -/
theorem claim10_witness :
    (∀ el ∈ gridElems, el.rect.WF) ∧
    findNextFocusable gridElems item1 Direction.arrowDown =
      findNextNoProjection gridElems item1 Direction.arrowDown :=
  ⟨by decide, claim10_projection_refinement.2 gridElems item1
    Direction.arrowDown (by decide)⟩

/-- The direction-soundness property of the spec, as a predicate on the
current and returned rectangles. -/
def spec_directionSound (cur cand : Rect) : Direction → Prop
  | Direction.arrowUp => (getCenter cand).y < (getCenter cur).y
  | Direction.arrowDown => (getCenter cur).y < (getCenter cand).y
  | Direction.arrowLeft => (getCenter cand).x < (getCenter cur).x
  | Direction.arrowRight => (getCenter cur).x < (getCenter cand).x

lemma candidateScore_some_side (cur cand : Rect) (direction : Direction)
    (q : ℚ) (h : candidateScore cur direction cand = some q) :
    spec_directionSound cur cand direction := by
  cases direction with
  | arrowUp =>
    unfold candidateScore at h
    dsimp only at h
    by_cases hcond : ((getCenter cand).y - (getCenter cur).y < 0 ∧
        cur.left < cand.right ∧ cand.left < cur.right)
    · unfold spec_directionSound
      linarith [hcond.1]
    · rw [if_neg hcond] at h
      simp at h
  | arrowDown =>
    unfold candidateScore at h
    dsimp only at h
    by_cases hcond : (0 < (getCenter cand).y - (getCenter cur).y ∧
        cur.left < cand.right ∧ cand.left < cur.right)
    · unfold spec_directionSound
      linarith [hcond.1]
    · rw [if_neg hcond] at h
      simp at h
  | arrowLeft =>
    unfold candidateScore at h
    dsimp only at h
    by_cases hcond : ((getCenter cand).x - (getCenter cur).x < 0 ∧
        cur.top < cand.bottom ∧ cand.top < cur.bottom)
    · unfold spec_directionSound
      linarith [hcond.1]
    · rw [if_neg hcond] at h
      simp at h
  | arrowRight =>
    unfold candidateScore at h
    dsimp only at h
    by_cases hcond : (0 < (getCenter cand).x - (getCenter cur).x ∧
        cur.top < cand.bottom ∧ cand.top < cur.bottom)
    · unfold spec_directionSound
      linarith [hcond.1]
    · rw [if_neg hcond] at h
      simp at h

/-- C9: whenever `findNext` returns a candidate for direction right, that
candidate's center x strictly exceeds the current center x; symmetrically
for the other three directions. -/
theorem claim9_direction_soundness
    (elements : List Region) (current : Region) (direction : Direction)
    (r : Region)
    (h : findNextFocusable elements current direction = some r) :
    spec_directionSound current.rect r.rect direction := by
  rw [findNextFocusable] at h
  obtain ⟨⟨r0, d⟩, hsel, hfst⟩ := Option.map_eq_some'.mp h
  obtain rfl : r0 = r := hfst
  obtain ⟨l1, l2, hsplit, hscr, -, -⟩ := selectBest_from_none _ _ r0 d hsel
  exact candidateScore_some_side current.rect r0.rect direction d hscr

/-- C9 witness: the theorem applied at the concrete grid, going right from
item1 to item2. -/
theorem claim9_witness :
    findNextFocusable gridElems item1 Direction.arrowRight = some item2 ∧
    spec_directionSound item1.rect item2.rect Direction.arrowRight :=
  ⟨by decide, claim9_direction_soundness gridElems item1 Direction.arrowRight
    item2 (by decide)⟩


/-! Lemmas showing that no command reads or writes the `initialized` flag:
every command commutes with overwriting that flag.  This is what makes the
engine not gated after `destroy`. -/

lemma updateFocusClass_setInit (s : EngineState) (el : Region) (b : Bool) :
    updateFocusClass { s with initialized := b } el =
      { updateFocusClass s el with initialized := b } := by
  unfold updateFocusClass
  dsimp only
  cases hp : s.previouslyFocused <;> dsimp only <;> split_ifs <;> rfl

lemma runFocusHandler_setInit (s : EngineState) (c : Region) (i : Nat) (b : Bool) :
    runFocusHandler { s with initialized := b } c i =
      { runFocusHandler s c i with initialized := b } := by
  unfold runFocusHandler
  dsimp only
  rw [updateFocusClass_setInit { s with currentFocusIndex := (i : Int) } c b]
  cases hc : c.childAttr <;> dsimp only <;> split_ifs <;> rfl

lemma focusEl_setInit (s : EngineState) (el : Region) (b : Bool) :
    focusEl { s with initialized := b } el =
      { focusEl s el with initialized := b } := by
  unfold focusEl
  dsimp only
  cases hf : s.hostFocus with
  | none =>
    dsimp only
    cases hh : s.focusEventHandlers.find? (fun p => p.1.same el) with
    | none => rfl
    | some p =>
      obtain ⟨c, i⟩ := p
      dsimp only
      exact runFocusHandler_setInit { s with hostFocus := some el } c i b
  | some f =>
    dsimp only
    split_ifs with h
    · rw [hf]
    · cases hh : s.focusEventHandlers.find? (fun p => p.1.same el) with
      | none => rfl
      | some p =>
        obtain ⟨c, i⟩ := p
        dsimp only
        exact runFocusHandler_setInit { s with hostFocus := some el } c i b

lemma focusAndCommit_setInit (s : EngineState) (el : Region) (b : Bool) :
    focusAndCommit { s with initialized := b } el =
      { focusAndCommit s el with initialized := b } := by
  unfold focusAndCommit
  dsimp only
  rw [focusEl_setInit]
  dsimp only
  exact updateFocusClass_setInit
    { focusEl s el with
      currentFocusIndex := idxOf (focusEl s el).focusableElements el } el b

lemma focusChild_setInit (s : EngineState) (cs : List Region) (pid : String)
    (b : Bool) :
    focusChild { s with initialized := b } cs pid =
      ({ (focusChild s cs pid).1 with initialized := b },
        (focusChild s cs pid).2) := by
  unfold focusChild
  dsimp only
  cases hm : mapGet s.lastParentMap pid with
  | none =>
    dsimp only
    cases hh : cs.head? with
    | none => rfl
    | some t =>
      dsimp only
      split_ifs with hv
      · rw [focusAndCommit_setInit]
      · rfl
  | some c =>
    dsimp only
    by_cases hc : cs.any (fun el => el.same c)
    · simp only [if_pos hc]
      split_ifs with hv
      · rw [focusAndCommit_setInit]
      · rfl
    · simp only [if_neg hc]
      cases hh : cs.head? with
      | none => rfl
      | some t =>
        dsimp only
        split_ifs with hv
        · rw [focusAndCommit_setInit]
        · rfl

lemma navigateToChildren_setInit (s : EngineState) (p : Region) (b : Bool) :
    navigateToChildren { s with initialized := b } p =
      ({ (navigateToChildren s p).1 with initialized := b },
        (navigateToChildren s p).2) := by
  unfold navigateToChildren
  dsimp only
  cases hp : p.parentAttr with
  | none => rfl
  | some pid =>
    dsimp only
    split_ifs with h1 h2 h3 <;> first
      | rfl
      | rw [focusChild_setInit]

lemma handleDirectionalNavigation_setInit (s : EngineState)
    (cur : Option Region) (d : Direction) (b : Bool) :
    handleDirectionalNavigation { s with initialized := b } cur d =
      { handleDirectionalNavigation s cur d with initialized := b } := by
  unfold handleDirectionalNavigation
  dsimp only
  have hstep : ∀ start : Region,
      (if shouldNavigateToChildren s.parentPosition s.focusableElements start
          d then navigateToChildren { s with initialized := b } start
        else ({ s with initialized := b }, false)) =
      ({ (if shouldNavigateToChildren s.parentPosition s.focusableElements
            start d then navigateToChildren s start else (s, false)).1 with
          initialized := b },
        (if shouldNavigateToChildren s.parentPosition s.focusableElements
            start d then navigateToChildren s start else (s, false)).2) := by
    intro start
    split_ifs with hn
    · rw [navigateToChildren_setInit]
    · rfl
  cases cur with
  | none =>
    try dsimp only
    cases hs : s.focusableElements.find? (fun el => el.visible) with
    | none => rfl
    | some start =>
      try dsimp only
      rw [hstep start]
      by_cases hn : shouldNavigateToChildren s.parentPosition
          s.focusableElements start d = true
      · simp only [if_pos hn]
        try dsimp only
        by_cases hnav : (navigateToChildren s start).2 = true
        · simp only [if_pos hnav]
        · simp only [if_neg hnav]
          try dsimp only
          cases hc : checkParentNavigation
              (navigateToChildren s start).1.parentPosition
              (navigateToChildren s start).1.focusableElements start d with
          | some pe =>
            try dsimp only
            rw [focusAndCommit_setInit (navigateToChildren s start).1 pe b]
          | none =>
            try dsimp only
            cases hf : findNextFocusable
                (navigateToChildren s start).1.focusableElements start d with
            | some ne =>
              try dsimp only
              rw [focusAndCommit_setInit (navigateToChildren s start).1 ne b]
            | none => rfl
      · simp only [if_neg hn]
        try dsimp only
        simp only [if_neg Bool.false_ne_true]
        cases hc : checkParentNavigation s.parentPosition s.focusableElements
            start d with
        | some pe =>
          try dsimp only
          rw [focusAndCommit_setInit s pe b]
        | none =>
          try dsimp only
          cases hf : findNextFocusable s.focusableElements start d with
          | some ne =>
            try dsimp only
            rw [focusAndCommit_setInit s ne b]
          | none => rfl
  | some c =>
    try dsimp only
    by_cases hmem : s.focusableElements.any (fun el => el.same c) = true
    · simp only [if_pos hmem]
      try dsimp only
      rw [hstep c]
      by_cases hn : shouldNavigateToChildren s.parentPosition
          s.focusableElements c d = true
      · simp only [if_pos hn]
        try dsimp only
        by_cases hnav : (navigateToChildren s c).2 = true
        · simp only [if_pos hnav]
        · simp only [if_neg hnav]
          try dsimp only
          cases hc : checkParentNavigation
              (navigateToChildren s c).1.parentPosition
              (navigateToChildren s c).1.focusableElements c d with
          | some pe =>
            try dsimp only
            rw [focusAndCommit_setInit (navigateToChildren s c).1 pe b]
          | none =>
            try dsimp only
            cases hf : findNextFocusable
                (navigateToChildren s c).1.focusableElements c d with
            | some ne =>
              try dsimp only
              rw [focusAndCommit_setInit (navigateToChildren s c).1 ne b]
            | none => rfl
      · simp only [if_neg hn]
        try dsimp only
        simp only [if_neg Bool.false_ne_true]
        cases hc : checkParentNavigation s.parentPosition s.focusableElements
            c d with
        | some pe =>
          try dsimp only
          rw [focusAndCommit_setInit s pe b]
        | none =>
          try dsimp only
          cases hf : findNextFocusable s.focusableElements c d with
          | some ne =>
            try dsimp only
            rw [focusAndCommit_setInit s ne b]
          | none => rfl
    · simp only [if_neg hmem]
      cases hs : s.focusableElements.find? (fun el => el.visible) with
      | none => rfl
      | some start =>
        try dsimp only
        rw [hstep start]
        by_cases hn : shouldNavigateToChildren s.parentPosition
            s.focusableElements start d = true
        · simp only [if_pos hn]
          try dsimp only
          by_cases hnav : (navigateToChildren s start).2 = true
          · simp only [if_pos hnav]
          · simp only [if_neg hnav]
            try dsimp only
            cases hc : checkParentNavigation
                (navigateToChildren s start).1.parentPosition
                (navigateToChildren s start).1.focusableElements start d with
            | some pe =>
              try dsimp only
              rw [focusAndCommit_setInit (navigateToChildren s start).1 pe b]
            | none =>
              try dsimp only
              cases hf : findNextFocusable
                  (navigateToChildren s start).1.focusableElements start d with
              | some ne =>
                try dsimp only
                rw [focusAndCommit_setInit (navigateToChildren s start).1 ne b]
              | none => rfl
        · simp only [if_neg hn]
          try dsimp only
          simp only [if_neg Bool.false_ne_true]
          cases hc : checkParentNavigation s.parentPosition s.focusableElements
              start d with
          | some pe =>
            try dsimp only
            rw [focusAndCommit_setInit s pe b]
          | none =>
            try dsimp only
            cases hf : findNextFocusable s.focusableElements start d with
            | some ne =>
              try dsimp only
              rw [focusAndCommit_setInit s ne b]
            | none => rfl

lemma handleEnterKey_setInit (s : EngineState) (cur : Option Region)
    (b : Bool) :
    handleEnterKey { s with initialized := b } cur =
      { handleEnterKey s cur with initialized := b } := by
  unfold handleEnterKey
  try dsimp only
  cases cur with
  | none => rfl
  | some c =>
    try dsimp only
    by_cases hmem : s.focusableElements.any (fun el => el.same c) = true
    · simp only [if_pos hmem]
      rw [navigateToChildren_setInit]
      try dsimp only
      by_cases hnav : (navigateToChildren s c).2 = true
      · simp only [hnav]
        try dsimp only
        rfl
      · simp only [Bool.not_eq_true] at hnav
        simp only [hnav]
        try dsimp only
        rfl
    · simp only [if_neg hmem]

lemma resolveCurrent_setInit (s : EngineState) (b : Bool) :
    resolveCurrent { s with initialized := b } = resolveCurrent s := rfl

lemma triggerBack_setInit (s : EngineState) (b : Bool) :
    triggerBack { s with initialized := b } =
      { triggerBack s with initialized := b } := by
  unfold triggerBack
  rw [resolveCurrent_setInit]
  cases hr : resolveCurrent s with
  | none => rfl
  | some cur =>
    try dsimp only
    by_cases hmem : s.focusableElements.any (fun el => el.same cur) = true
    · simp only [hmem, Bool.not_true]
      simp only [if_neg Bool.false_ne_true]
      cases hc : cur.childAttr with
      | none => rfl
      | some key =>
        try dsimp only
        by_cases hk : (key == "") = true
        · simp only [if_pos hk]
        · simp only [if_neg hk]
          cases hp : s.focusableElements.filter
              (fun el => attrEq el.parentAttr key && el.visible) with
          | nil => rfl
          | cons p rest =>
            try dsimp only
            exact focusAndCommit_setInit s p b
    · simp only [Bool.not_eq_true] at hmem
      simp only [hmem, Bool.not_false]
      try simp only [if_pos rfl]
      try rfl

lemma triggerArrowUp_setInit (s : EngineState) (b : Bool) :
    triggerArrowUp { s with initialized := b } =
      { triggerArrowUp s with initialized := b } := by
  unfold triggerArrowUp
  rw [resolveCurrent_setInit]
  exact handleDirectionalNavigation_setInit s (resolveCurrent s) _ b

lemma triggerArrowDown_setInit (s : EngineState) (b : Bool) :
    triggerArrowDown { s with initialized := b } =
      { triggerArrowDown s with initialized := b } := by
  unfold triggerArrowDown
  rw [resolveCurrent_setInit]
  exact handleDirectionalNavigation_setInit s (resolveCurrent s) _ b

lemma triggerArrowLeft_setInit (s : EngineState) (b : Bool) :
    triggerArrowLeft { s with initialized := b } =
      { triggerArrowLeft s with initialized := b } := by
  unfold triggerArrowLeft
  rw [resolveCurrent_setInit]
  exact handleDirectionalNavigation_setInit s (resolveCurrent s) _ b

lemma triggerArrowRight_setInit (s : EngineState) (b : Bool) :
    triggerArrowRight { s with initialized := b } =
      { triggerArrowRight s with initialized := b } := by
  unfold triggerArrowRight
  rw [resolveCurrent_setInit]
  exact handleDirectionalNavigation_setInit s (resolveCurrent s) _ b

lemma triggerEnter_setInit (s : EngineState) (b : Bool) :
    triggerEnter { s with initialized := b } =
      { triggerEnter s with initialized := b } := by
  unfold triggerEnter
  rw [resolveCurrent_setInit]
  exact handleEnterKey_setInit s (resolveCurrent s) b

/-- C2 counterexample: in a two-region engine whose host focus remains on
the first region, destroying the engine and then issuing an arrow-right
command mutates both `currentFocusIndex` and `activeElement` (and the
decoration), so a command after `destroy` is not a no-op. -/
theorem claim2_counterexample :
    (triggerArrowRight (destroy twoLeafState)).currentFocusIndex ≠
        (destroy twoLeafState).currentFocusIndex ∧
    (triggerArrowRight (destroy twoLeafState)).activeElement ≠
        (destroy twoLeafState).activeElement ∧
    (triggerArrowRight (destroy twoLeafState)).decorated ≠
        (destroy twoLeafState).decorated := by
  refine ⟨?_, ?_, ?_⟩ <;> decide

/-- C2 amended: after teardown, commands raise no error, but they are not
no-ops.  `destroy` clears the focus listeners, the decoration of the last
decorated region, `activeElement` and the Last-Visited-Child map and drops
the initialized flag, while retaining the Region Set, `currentFocusIndex`
and host focus; and no command consults the lifecycle flag — every command
commutes with overwriting `initialized` — so a command issued after
teardown acts on the retained state exactly as it would on an active
engine (and can therefore still mutate `currentFocusIndex`,
`activeElement` and the decoration, as the counterexample shows). -/
theorem claim2_amended (s : EngineState) (b : Bool) :
    (destroy s).focusEventHandlers = [] ∧
    (destroy s).previouslyFocused = none ∧
    (destroy s).activeElement = none ∧
    (destroy s).lastParentMap = [] ∧
    (destroy s).initialized = false ∧
    (destroy s).focusableElements = s.focusableElements ∧
    (destroy s).currentFocusIndex = s.currentFocusIndex ∧
    (destroy s).hostFocus = s.hostFocus ∧
    triggerArrowUp { s with initialized := b } =
      { triggerArrowUp s with initialized := b } ∧
    triggerArrowDown { s with initialized := b } =
      { triggerArrowDown s with initialized := b } ∧
    triggerArrowLeft { s with initialized := b } =
      { triggerArrowLeft s with initialized := b } ∧
    triggerArrowRight { s with initialized := b } =
      { triggerArrowRight s with initialized := b } ∧
    triggerEnter { s with initialized := b } =
      { triggerEnter s with initialized := b } ∧
    triggerBack { s with initialized := b } =
      { triggerBack s with initialized := b } := by
  refine ⟨?_, ?_, ?_, ?_, ?_, ?_, ?_, ?_,
    triggerArrowUp_setInit s b, triggerArrowDown_setInit s b,
    triggerArrowLeft_setInit s b, triggerArrowRight_setInit s b,
    triggerEnter_setInit s b, triggerBack_setInit s b⟩ <;>
  · unfold destroy
    cases s.previouslyFocused <;> rfl

/-! The currentIndex invariant of the spec and its preservation by the
commands.  All command paths that change `currentFocusIndex` end in the
`indexOf`-based commit sequence (or overwrite a listener's write with it),
so the index stays `-1` or in range whenever the Region Set is unchanged.
`updateFocusableElements`, by contrast, replaces the Region Set without
touching `currentFocusIndex`. -/

/-- The invariant of the spec: `currentIndex` is `-1` or refers to a region
present in the current Region Set. -/
def IndexInv (s : EngineState) : Prop :=
  s.currentFocusIndex = -1 ∨
    (0 ≤ s.currentFocusIndex ∧
      s.currentFocusIndex < (s.focusableElements.length : Int))

instance (s : EngineState) : Decidable (IndexInv s) := by
  unfold IndexInv; infer_instance

lemma idxOf_bounds (l : List Region) (r : Region) :
    idxOf l r = -1 ∨ (0 ≤ idxOf l r ∧ idxOf l r < (l.length : Int)) := by
  unfold idxOf
  cases h : l.findIdx? (fun el => el.same r) with
  | none => exact Or.inl rfl
  | some i =>
    dsimp only
    rw [List.findIdx?_eq_some_iff_findIdx_eq] at h
    refine Or.inr ⟨Int.ofNat_nonneg i, ?_⟩
    exact_mod_cast h.1

lemma updateFocusClass_fields (s : EngineState) (el : Region) :
    (updateFocusClass s el).currentFocusIndex = s.currentFocusIndex ∧
    (updateFocusClass s el).focusableElements = s.focusableElements := by
  unfold updateFocusClass
  cases s.previouslyFocused with
  | none => exact ⟨rfl, rfl⟩
  | some p =>
    dsimp only
    split_ifs <;> exact ⟨rfl, rfl⟩

lemma runFocusHandler_elements (s : EngineState) (c : Region) (i : Nat) :
    (runFocusHandler s c i).focusableElements = s.focusableElements := by
  unfold runFocusHandler
  dsimp only
  cases c.childAttr with
  | none => exact (updateFocusClass_fields _ c).2
  | some key =>
    dsimp only
    split_ifs <;> exact (updateFocusClass_fields _ c).2

lemma focusEl_elements (s : EngineState) (el : Region) :
    (focusEl s el).focusableElements = s.focusableElements := by
  unfold focusEl
  dsimp only
  cases s.hostFocus with
  | none =>
    simp only [if_neg Bool.false_ne_true]
    cases s.focusEventHandlers.find? (fun p => p.1.same el) with
    | none => rfl
    | some ci =>
      obtain ⟨c, i⟩ := ci
      exact runFocusHandler_elements _ c i
  | some f =>
    dsimp only
    split_ifs with hf
    · rfl
    · cases s.focusEventHandlers.find? (fun p => p.1.same el) with
      | none => rfl
      | some ci =>
        obtain ⟨c, i⟩ := ci
        exact runFocusHandler_elements _ c i

lemma focusAndCommit_inv (s : EngineState) (el : Region) :
    IndexInv (focusAndCommit s el) := by
  unfold focusAndCommit
  dsimp only
  have hf := updateFocusClass_fields
    { focusEl s el with
      currentFocusIndex := idxOf (focusEl s el).focusableElements el } el
  unfold IndexInv
  rw [hf.1, hf.2]
  dsimp only
  rw [focusEl_elements]
  exact idxOf_bounds s.focusableElements el

lemma focusChild_inv (s : EngineState) (cs : List Region) (pid : String)
    (h : IndexInv s) : IndexInv (focusChild s cs pid).1 := by
  unfold focusChild
  dsimp only
  cases mapGet s.lastParentMap pid with
  | none =>
    dsimp only
    cases cs.head? with
    | none => exact h
    | some t =>
      dsimp only
      split_ifs with hv
      · have hi := focusAndCommit_inv s t
        unfold IndexInv at hi ⊢
        exact hi
      · exact h
  | some c =>
    dsimp only
    by_cases hc : cs.any (fun el => el.same c) = true
    · simp only [if_pos hc]
      split_ifs with hv
      · have hi := focusAndCommit_inv s c
        unfold IndexInv at hi ⊢
        exact hi
      · exact h
    · simp only [if_neg hc]
      cases cs.head? with
      | none => exact h
      | some t =>
        dsimp only
        split_ifs with hv
        · have hi := focusAndCommit_inv s t
          unfold IndexInv at hi ⊢
          exact hi
        · exact h

lemma navigateToChildren_inv (s : EngineState) (p : Region)
    (h : IndexInv s) : IndexInv (navigateToChildren s p).1 := by
  unfold navigateToChildren
  dsimp only
  cases p.parentAttr with
  | none => exact h
  | some pid =>
    dsimp only
    split_ifs with h1 h2 h3 <;>
      first
        | exact h
        | exact focusChild_inv s _ pid h

lemma handleDirectionalNavigation_inv (s : EngineState)
    (cur : Option Region) (d : Direction) (h : IndexInv s) :
    IndexInv (handleDirectionalNavigation s cur d) := by
  unfold handleDirectionalNavigation
  dsimp only
  have hrest : ∀ start : Region,
      IndexInv (if
        (if shouldNavigateToChildren s.parentPosition s.focusableElements
            start d then navigateToChildren s start else (s, false)).2 = true
        then (if shouldNavigateToChildren s.parentPosition s.focusableElements
            start d then navigateToChildren s start else (s, false)).1
        else
          match checkParentNavigation
            (if shouldNavigateToChildren s.parentPosition s.focusableElements
              start d then navigateToChildren s start else (s, false)).1.parentPosition
            (if shouldNavigateToChildren s.parentPosition s.focusableElements
              start d then navigateToChildren s start else (s, false)).1.focusableElements
            start d with
          | some parentElement =>
            focusAndCommit (if shouldNavigateToChildren s.parentPosition
              s.focusableElements start d then navigateToChildren s start
              else (s, false)).1 parentElement
          | none =>
            match findNextFocusable (if shouldNavigateToChildren
                s.parentPosition s.focusableElements start d then
                navigateToChildren s start else (s, false)).1.focusableElements
                start d with
            | some nextElement =>
              focusAndCommit (if shouldNavigateToChildren s.parentPosition
                s.focusableElements start d then navigateToChildren s start
                else (s, false)).1 nextElement
            | none => (if shouldNavigateToChildren s.parentPosition
                s.focusableElements start d then navigateToChildren s start
                else (s, false)).1) := by
    intro start
    by_cases hn : shouldNavigateToChildren s.parentPosition
        s.focusableElements start d = true
    · simp only [if_pos hn]
      by_cases hnav : (navigateToChildren s start).2 = true
      · simp only [if_pos hnav]
        exact navigateToChildren_inv s start h
      · simp only [if_neg hnav]
        cases checkParentNavigation (navigateToChildren s start).1.parentPosition
            (navigateToChildren s start).1.focusableElements start d with
        | some pe => exact focusAndCommit_inv _ pe
        | none =>
          dsimp only
          cases findNextFocusable
              (navigateToChildren s start).1.focusableElements start d with
          | some ne => exact focusAndCommit_inv _ ne
          | none => exact navigateToChildren_inv s start h
    · simp only [if_neg hn]
      try dsimp only
      simp only [if_neg Bool.false_ne_true]
      cases checkParentNavigation s.parentPosition s.focusableElements
          start d with
      | some pe => exact focusAndCommit_inv _ pe
      | none =>
        dsimp only
        cases findNextFocusable s.focusableElements start d with
        | some ne => exact focusAndCommit_inv _ ne
        | none => exact h
  cases cur with
  | none =>
    dsimp only
    cases s.focusableElements.find? (fun el => el.visible) with
    | none => exact h
    | some start => exact hrest start
  | some c =>
    dsimp only
    by_cases hmem : s.focusableElements.any (fun el => el.same c) = true
    · simp only [if_pos hmem]
      exact hrest c
    · simp only [if_neg hmem]
      cases s.focusableElements.find? (fun el => el.visible) with
      | none => exact h
      | some start => exact hrest start

lemma handleEnterKey_inv (s : EngineState) (cur : Option Region)
    (h : IndexInv s) : IndexInv (handleEnterKey s cur) := by
  unfold handleEnterKey
  dsimp only
  cases cur with
  | none => exact h
  | some c =>
    dsimp only
    by_cases hmem : s.focusableElements.any (fun el => el.same c) = true
    · simp only [if_pos hmem]
      by_cases hnav : (navigateToChildren s c).2 = true
      · simp only [hnav]
        try dsimp only
        exact navigateToChildren_inv s c h
      · simp only [Bool.not_eq_true] at hnav
        simp only [hnav]
        try dsimp only
        have hi := navigateToChildren_inv s c h
        unfold IndexInv at hi ⊢
        exact hi
    · simp only [if_neg hmem]
      exact h

lemma triggerBack_inv (s : EngineState) (h : IndexInv s) :
    IndexInv (triggerBack s) := by
  unfold triggerBack
  cases resolveCurrent s with
  | none => exact h
  | some cur =>
    dsimp only
    by_cases hmem : s.focusableElements.any (fun el => el.same cur) = true
    · simp only [hmem, Bool.not_true]
      simp only [if_neg Bool.false_ne_true]
      cases cur.childAttr with
      | none => exact h
      | some key =>
        dsimp only
        split_ifs with hk
        · exact h
        · cases s.focusableElements.filter
              (fun el => attrEq el.parentAttr key && el.visible) with
          | nil => exact h
          | cons p rest => exact focusAndCommit_inv s p
    · simp only [Bool.not_eq_true] at hmem
      simp only [hmem, Bool.not_false]
      try simp only [if_pos rfl]
      exact h

/-- The two-leaf engine state remembered at index 1, used to exercise a
Region Set refresh that shrinks the set. -/
def shrinkState : EngineState := { twoLeafState with currentFocusIndex := 1 }

/-- C3 counterexample: `updateFocusableElements` replaces the Region Set
without touching `currentFocusIndex`, so refreshing a two-region engine
remembered at index 1 down to a single region leaves `currentIndex = 1`
pointing outside the new Region Set — the invariant is not preserved by
refresh. -/
theorem claim3_counterexample :
    IndexInv shrinkState ∧
    ¬ IndexInv (updateFocusableElements shrinkState [item1]) := by
  constructor <;> decide

/-- C3 amended: the currentIndex invariant (`currentIndex` is `-1` or in
range of the Region Set) is preserved by every command
(`moveDirection` in all four directions, `select`, `back`) and by
teardown; it is not preserved by `refreshRegions`
(`updateFocusableElements`), which retains the old `currentFocusIndex`
while replacing the Region Set (see the counterexample). -/
theorem claim3_amended (s : EngineState) (h : IndexInv s) :
    IndexInv (triggerArrowUp s) ∧ IndexInv (triggerArrowDown s) ∧
    IndexInv (triggerArrowLeft s) ∧ IndexInv (triggerArrowRight s) ∧
    IndexInv (triggerEnter s) ∧ IndexInv (triggerBack s) ∧
    IndexInv (destroy s) := by
  refine ⟨handleDirectionalNavigation_inv s _ _ h,
    handleDirectionalNavigation_inv s _ _ h,
    handleDirectionalNavigation_inv s _ _ h,
    handleDirectionalNavigation_inv s _ _ h,
    handleEnterKey_inv s _ h, triggerBack_inv s h, ?_⟩
  unfold destroy IndexInv
  cases s.previouslyFocused <;> exact h

/-- C3 witness: the amended theorem applied at the concrete group state. -/
theorem claim3_witness :
    IndexInv groupState ∧
    (IndexInv (triggerArrowUp groupState) ∧
      IndexInv (triggerArrowDown groupState) ∧
      IndexInv (triggerArrowLeft groupState) ∧
      IndexInv (triggerArrowRight groupState) ∧
      IndexInv (triggerEnter groupState) ∧
      IndexInv (triggerBack groupState) ∧
      IndexInv (destroy groupState)) :=
  ⟨by decide, claim3_amended groupState (by decide)⟩

/-- C7 counterexample: with the second child focused (a child that has a
visible sibling to its left, so the escape edge condition fails and
`shouldNavigateToParent` answers false), `back()` nevertheless focuses the
group head and mutates state — so `back()` is not governed by the escape
conditions, and it is not a no-op in their absence. -/
theorem claim7_counterexample :
    shouldNavigateToParent ParentPosition.left groupElems gChild2
        Direction.arrowLeft "g" = false ∧
    isElementAtLeftEdge gChild2 (groupElems.filter
        (fun el => attrEq el.childAttr "g" && el.visible)) = false ∧
    (triggerBack secondChildState).activeElement = some gHead ∧
    triggerBack secondChildState ≠ secondChildState := by
  refine ⟨?_, ?_, ?_, ?_⟩ <;> decide

/-- C7 amended: `back()` performs no edge-position or side-position check
at all.  It focuses the first visible region carrying the current region's
group key whenever the effective current region is a member of the Region
Set with a truthy group key and such a visible head exists (running the
usual commit sequence `focusAndCommit`); in every other situation it is a
no-op. -/
theorem claim7_amended (s : EngineState) :
    (resolveCurrent s = none → triggerBack s = s) ∧
    (∀ cur, resolveCurrent s = some cur →
      (s.focusableElements.any (fun el => el.same cur) = false →
        triggerBack s = s) ∧
      (cur.childAttr = none → triggerBack s = s) ∧
      (cur.childAttr = some "" → triggerBack s = s) ∧
      (∀ key, cur.childAttr = some key → key ≠ "" →
        (s.focusableElements.filter
            (fun el => attrEq el.parentAttr key && el.visible) = [] →
          triggerBack s = s) ∧
        (∀ hd rest, s.focusableElements.filter
            (fun el => attrEq el.parentAttr key && el.visible) = hd :: rest →
          s.focusableElements.any (fun el => el.same cur) = true →
          triggerBack s = focusAndCommit s hd))) := by
  unfold triggerBack
  cases hr : resolveCurrent s with
  | none =>
    refine ⟨fun _ => rfl, fun cur hcur => ?_⟩
    cases hcur
  | some cur0 =>
    refine ⟨fun hn => ?_, fun cur hcur => ?_⟩
    · cases hn
    · injection hcur with hcur'
      subst hcur'
      have hkeyfalse : ∀ key : String, key ≠ "" → (key == "") = false := by
        intro key hk
        simp [hk]
      refine ⟨?_, ?_, ?_, ?_⟩
      · intro hmem
        simp only [hmem, Bool.not_false]
        try simp only [if_pos rfl]
        try rfl
      · intro hc
        by_cases hmem : s.focusableElements.any (fun el => el.same cur0) = true
        · simp only [hmem, Bool.not_true]
          simp only [if_neg Bool.false_ne_true]
          simp only [hc]
        · simp only [Bool.not_eq_true] at hmem
          simp only [hmem, Bool.not_false]
          try simp only [if_pos rfl]
          try rfl
      · intro hc
        by_cases hmem : s.focusableElements.any (fun el => el.same cur0) = true
        · simp only [hmem, Bool.not_true]
          simp only [if_neg Bool.false_ne_true]
          simp only [hc]
          try dsimp only
          rfl
        · simp only [Bool.not_eq_true] at hmem
          simp only [hmem, Bool.not_false]
          try simp only [if_pos rfl]
          try rfl
      · intro key hkey hkne
        constructor
        · intro hfilt
          by_cases hmem : s.focusableElements.any (fun el => el.same cur0) = true
          · simp only [hmem, Bool.not_true]
            simp only [if_neg Bool.false_ne_true]
            simp only [hkey]
            try dsimp only
            simp only [hkeyfalse key hkne]
            simp only [if_neg Bool.false_ne_true]
            rw [hfilt]
          · simp only [Bool.not_eq_true] at hmem
            simp only [hmem, Bool.not_false]
            try simp only [if_pos rfl]
            try rfl
        · intro hd rest hfilt hmem
          simp only [hmem, Bool.not_true]
          simp only [if_neg Bool.false_ne_true]
          simp only [hkey]
          try dsimp only
          simp only [hkeyfalse key hkne]
          simp only [if_neg Bool.false_ne_true]
          rw [hfilt]

/-- C7 witness: the amended theorem applied at the concrete
second-child state — a non-edge child whose `back()` still focuses the
group head. -/
theorem claim7_witness :
    resolveCurrent secondChildState = some gChild2 ∧
    gChild2.childAttr = some "g" ∧
    secondChildState.focusableElements.filter
        (fun el => attrEq el.parentAttr "g" && el.visible) = gHead :: [] ∧
    secondChildState.focusableElements.any
        (fun el => el.same gChild2) = true ∧
    triggerBack secondChildState = focusAndCommit secondChildState gHead :=
  ⟨by decide, by decide, by decide, by decide,
    (((claim7_amended secondChildState).2 gChild2 (by decide)).2.2.2 "g"
        (by decide) (by decide)).2 gHead [] (by decide) (by decide)⟩

lemma isElementAtLeftEdge_iff (elements : List Region) (cur : Region)
    (key : String) (hmem : cur ∈ elements) (hvis : cur.visible = true)
    (hchild : cur.childAttr = some key) :
    isElementAtLeftEdge cur (elements.filter
        (fun el => attrEq el.childAttr key && el.visible)) = true ↔
      ¬ ∃ sib ∈ elements, sib.visible = true ∧ sib.childAttr = some key ∧
        sib.same cur = false ∧ sib.rect.right ≤ cur.rect.left ∧
        cur.rect.top < sib.rect.bottom ∧ sib.rect.top < cur.rect.bottom := by
  have hcur_in : cur ∈ elements.filter
      (fun el => attrEq el.childAttr key && el.visible) :=
    List.mem_filter.mpr ⟨hmem, by simp [attrEq, hchild, hvis]⟩
  unfold isElementAtLeftEdge
  by_cases hlen : (elements.filter
      (fun el => attrEq el.childAttr key && el.visible)).length ≤ 1
  · rw [if_pos hlen]
    simp only [true_iff]
    rintro ⟨sib, hsibmem, hv, hck, hsame, -, -, -⟩
    have hsib_in : sib ∈ elements.filter
        (fun el => attrEq el.childAttr key && el.visible) :=
      List.mem_filter.mpr ⟨hsibmem, by simp [attrEq, hck, hv]⟩
    rcases hfl : elements.filter
        (fun el => attrEq el.childAttr key && el.visible) with _ | ⟨x, _ | ⟨y, t⟩⟩
    · rw [hfl] at hcur_in
      cases hcur_in
    · rw [hfl] at hcur_in hsib_in
      have hc : cur = x := by simpa using hcur_in
      have hs : sib = x := by simpa using hsib_in
      rw [hs, hc] at hsame
      simp [Region.same] at hsame
    · rw [hfl] at hlen
      simp at hlen
  · rw [if_neg hlen]
    constructor
    · intro hno hexists
      obtain ⟨sib, hsibmem, hv, hck, hsame, h1, h2, h3⟩ := hexists
      have hsib_in : sib ∈ elements.filter
          (fun el => attrEq el.childAttr key && el.visible) :=
        List.mem_filter.mpr ⟨hsibmem, by simp [attrEq, hck, hv]⟩
      have hany : (elements.filter
          (fun el => attrEq el.childAttr key && el.visible)).any
            (fun sibling => !(sibling.same cur) &&
              decide (sibling.rect.right ≤ cur.rect.left) &&
              decide (cur.rect.top < sibling.rect.bottom) &&
              decide (sibling.rect.top < cur.rect.bottom)) = true :=
        List.any_eq_true.mpr ⟨sib, hsib_in, by
          rw [hsame]
          simp [h1, h2, h3]⟩
      rw [hany] at hno
      cases hno
    · intro hnoex
      cases hany : (elements.filter
          (fun el => attrEq el.childAttr key && el.visible)).any
            (fun sibling => !(sibling.same cur) &&
              decide (sibling.rect.right ≤ cur.rect.left) &&
              decide (cur.rect.top < sibling.rect.bottom) &&
              decide (sibling.rect.top < cur.rect.bottom)) with
      | false => rfl
      | true =>
        obtain ⟨sib, hsib_in, hf⟩ := List.any_eq_true.mp hany
        obtain ⟨hsibmem, hpred⟩ := List.mem_filter.mp hsib_in
        simp only [Bool.and_eq_true, Bool.not_eq_true',
          decide_eq_true_eq] at hf
        simp only [Bool.and_eq_true, attrEq, beq_iff_eq] at hpred
        exact absurd ⟨sib, hsibmem, hpred.2, hpred.1, hf.1.1.1, hf.1.1.2,
          hf.1.2, hf.2⟩ hnoex

/-- C6: with parent side `left`, the escape decision for a `left` command
on a visible member child answers true exactly when the child is at the
left structural edge of its visible sibling group (no visible sibling of
the same group strictly to its left with row overlap) and the (unique
visible) group head's right edge is at or left of the child's left edge;
in particular a non-edge child moving left does not escape to the head. -/
theorem claim6_escape_decision
    (elements : List Region) (cur h : Region) (key : String)
    (hmem : cur ∈ elements) (hvis : cur.visible = true)
    (hchild : cur.childAttr = some key)
    (hhead : elements.filter
        (fun el => attrEq el.parentAttr key && el.visible) = [h]) :
    shouldNavigateToParent ParentPosition.left elements cur
        Direction.arrowLeft key = true ↔
      ((¬ ∃ sib ∈ elements, sib.visible = true ∧ sib.childAttr = some key ∧
          sib.same cur = false ∧ sib.rect.right ≤ cur.rect.left ∧
          cur.rect.top < sib.rect.bottom ∧ sib.rect.top < cur.rect.bottom) ∧
        h.rect.right ≤ cur.rect.left) := by
  unfold shouldNavigateToParent
  dsimp only
  simp only [bne_self_eq_false]
  simp only [if_neg Bool.false_ne_true]
  rw [hhead]
  dsimp only
  by_cases hedge : isElementAtLeftEdge cur (elements.filter
      (fun el => attrEq el.childAttr key && el.visible)) = true
  · rw [hedge]
    simp only [Bool.not_true]
    simp only [if_neg Bool.false_ne_true]
    rw [decide_eq_true_eq]
    constructor
    · intro hside
      exact ⟨(isElementAtLeftEdge_iff elements cur key hmem hvis
        hchild).mp hedge, hside⟩
    · intro hand
      exact hand.2
  · simp only [Bool.not_eq_true] at hedge
    rw [hedge]
    simp only [Bool.not_false]
    try simp only [if_pos rfl]
    constructor
    · intro hfalse
      cases hfalse
    · intro hand
      have := (isElementAtLeftEdge_iff elements cur key hmem hvis
        hchild).mpr hand.1
      rw [hedge] at this
      cases this

/-- C6 witness: the theorem applied at the concrete group layout: the first
child is at the left edge, the head sits to its left, so the decision is
true there. -/
theorem claim6_witness :
    (gChild1 ∈ groupElems ∧ gChild1.visible = true ∧
      gChild1.childAttr = some "g" ∧
      groupElems.filter
        (fun el => attrEq el.parentAttr "g" && el.visible) = [gHead]) ∧
    (shouldNavigateToParent ParentPosition.left groupElems gChild1
        Direction.arrowLeft "g" = true ↔
      ((¬ ∃ sib ∈ groupElems, sib.visible = true ∧
          sib.childAttr = some "g" ∧ sib.same gChild1 = false ∧
          sib.rect.right ≤ gChild1.rect.left ∧
          gChild1.rect.top < sib.rect.bottom ∧
          sib.rect.top < gChild1.rect.bottom) ∧
        gHead.rect.right ≤ gChild1.rect.left)) :=
  ⟨⟨by decide, by decide, by decide, by decide⟩,
    claim6_escape_decision groupElems gChild1 gHead "g" (by decide)
      (by decide) (by decide) (by decide)⟩

lemma mapGet_mapSet (m : List (String × Region)) (k : String) (v : Region) :
    mapGet (mapSet m k v) k = some v := by
  unfold mapSet
  by_cases hh : mapHas m k = true
  · rw [if_pos hh]
    unfold mapHas at hh
    unfold mapGet
    induction m with
    | nil => simp at hh
    | cons p t ih =>
      simp only [List.any_cons, Bool.or_eq_true] at hh
      by_cases hk : (p.1 == k) = true
      · simp only [List.map_cons, if_pos hk]
        rw [List.find?_cons_of_pos _ (by simp)]
        rfl
      · simp only [List.map_cons, if_neg hk]
        rw [List.find?_cons_of_neg _ (by simp [hk])]
        rcases hh with hh | hh
        · exact absurd hh hk
        · exact ih hh
  · rw [if_neg hh]
    unfold mapHas at hh
    unfold mapGet
    induction m with
    | nil =>
      rw [List.nil_append, List.find?_cons_of_pos _ (by simp)]
      rfl
    | cons p t ih =>
      simp only [List.any_cons, Bool.or_eq_true, not_or] at hh
      rw [List.cons_append, List.find?_cons_of_neg _ (by simp [hh.1])]
      exact ih (by simp [hh.2])

lemma updateFocusClass_more (s : EngineState) (el : Region) :
    (updateFocusClass s el).activeElement = some el ∧
    (updateFocusClass s el).onSelectLog = s.onSelectLog ∧
    (updateFocusClass s el).lastParentMap = s.lastParentMap := by
  unfold updateFocusClass
  cases s.previouslyFocused with
  | none => exact ⟨rfl, rfl, rfl⟩
  | some p =>
    dsimp only
    split_ifs <;> exact ⟨rfl, rfl, rfl⟩

lemma runFocusHandler_log (s : EngineState) (c : Region) (i : Nat) :
    (runFocusHandler s c i).onSelectLog = s.onSelectLog := by
  unfold runFocusHandler
  dsimp only
  cases c.childAttr with
  | none => exact (updateFocusClass_more _ c).2.1
  | some key =>
    dsimp only
    split_ifs <;> exact (updateFocusClass_more _ c).2.1

lemma focusEl_log (s : EngineState) (el : Region) :
    (focusEl s el).onSelectLog = s.onSelectLog := by
  unfold focusEl
  dsimp only
  cases s.hostFocus with
  | none =>
    simp only [if_neg Bool.false_ne_true]
    cases s.focusEventHandlers.find? (fun p => p.1.same el) with
    | none => rfl
    | some ci =>
      obtain ⟨c, i⟩ := ci
      exact runFocusHandler_log _ c i
  | some f =>
    dsimp only
    split_ifs with hf
    · rfl
    · cases s.focusEventHandlers.find? (fun p => p.1.same el) with
      | none => rfl
      | some ci =>
        obtain ⟨c, i⟩ := ci
        exact runFocusHandler_log _ c i

lemma focusAndCommit_active (s : EngineState) (el : Region) :
    (focusAndCommit s el).activeElement = some el ∧
    (focusAndCommit s el).onSelectLog = s.onSelectLog := by
  unfold focusAndCommit
  dsimp only
  refine ⟨(updateFocusClass_more _ el).1, ?_⟩
  exact ((updateFocusClass_more _ el).2.1).trans (focusEl_log s el)

lemma head?_mem {cs : List Region} {t : Region} (h : cs.head? = some t) :
    t ∈ cs := by
  cases cs with
  | nil => cases h
  | cons a l =>
    rw [List.head?_cons] at h
    rw [Option.some.inj h]
    exact List.mem_cons_self t l

lemma focusChild_success (s : EngineState) (cs : List Region) (key : String)
    (hne : cs ≠ [])
    (hall : ∀ c ∈ cs, c.visible = true)
    (hcoh : ∀ p ∈ s.lastParentMap, ∀ el ∈ cs, el.same p.2 = true → el = p.2) :
    (focusChild s cs key).2 = true ∧
    ∃ t, (focusChild s cs key).1.activeElement = some t ∧ t ∈ cs ∧
      (focusChild s cs key).1.onSelectLog = s.onSelectLog ∧
      mapGet (focusChild s cs key).1.lastParentMap key = some t ∧
      (∀ c, mapGet s.lastParentMap key = some c →
        cs.any (fun el => el.same c) = true → t = c) ∧
      ((mapGet s.lastParentMap key = none ∨
        (∀ c, mapGet s.lastParentMap key = some c →
          cs.any (fun el => el.same c) = false)) → cs.head? = some t) := by
  unfold focusChild
  dsimp only
  cases hm : mapGet s.lastParentMap key with
  | none =>
    dsimp only
    cases hh : cs.head? with
    | none =>
      cases cs with
      | nil => exact absurd rfl hne
      | cons a l => cases hh
    | some t =>
      dsimp only
      have htin : t ∈ cs := head?_mem hh
      rw [if_pos (hall t htin)]
      refine ⟨rfl, t, (focusAndCommit_active s t).1, htin,
        (focusAndCommit_active s t).2, mapGet_mapSet _ key t, ?_, fun _ => rfl⟩
      intro c hc
      cases hc
  | some c =>
    dsimp only
    by_cases hcany : cs.any (fun el => el.same c) = true
    · simp only [if_pos hcany]
      have hpmem : ∃ p ∈ s.lastParentMap, p.2 = c := by
        unfold mapGet at hm
        cases hfind : s.lastParentMap.find? (fun p => p.1 == key) with
        | none => rw [hfind] at hm; cases hm
        | some p =>
          rw [hfind] at hm
          exact ⟨p, List.mem_of_find?_eq_some hfind, Option.some.inj hm⟩
      obtain ⟨p, hpin, hp2⟩ := hpmem
      obtain ⟨el, helin, helsame⟩ := List.any_eq_true.mp hcany
      have helc : el = c := by
        subst hp2
        exact hcoh p hpin el helin helsame
      have hcin : c ∈ cs := helc ▸ helin
      rw [if_pos (hall c hcin)]
      refine ⟨rfl, c, (focusAndCommit_active s c).1, hcin,
        (focusAndCommit_active s c).2, mapGet_mapSet _ key c, ?_, ?_⟩
      · intro c' hc'
        intro _
        exact Option.some.inj hc'
      · rintro (hnone | hforall)
        · cases hnone
        · have := hforall c rfl
          rw [hcany] at this
          cases this
    · simp only [if_neg hcany]
      cases hh : cs.head? with
      | none =>
        cases cs with
        | nil => exact absurd rfl hne
        | cons a l => cases hh
      | some t =>
        dsimp only
        have htin : t ∈ cs := head?_mem hh
        rw [if_pos (hall t htin)]
        refine ⟨rfl, t, (focusAndCommit_active s t).1, htin,
          (focusAndCommit_active s t).2, mapGet_mapSet _ key t, ?_,
          fun _ => rfl⟩
        intro c' hc' hc'any
        have hcc : c = c' := Option.some.inj hc'
        rw [← hcc] at hc'any
        exact absurd hc'any hcany

/-- C4: when the effective current region is a member group head with at
least one visible child, `select()` (Enter) drills in: the focused region
becomes a child of that group and the host selection callback is not
invoked.  No child-position check appears among the hypotheses: Enter
attempts the drill-in unconditionally (`handleEnterKey` never consults
`shouldNavigateToChildren`).  The coherence hypothesis says remembered map
entries agree with same-identity members of the Region Set, which is
automatic for states arising from a real document. -/
theorem claim4_select_drills_in (s : EngineState) (cur : Region)
    (key : String)
    (hcoh : ∀ p ∈ s.lastParentMap, ∀ el ∈ s.focusableElements,
      el.same p.2 = true → el = p.2)
    (hres : resolveCurrent s = some cur)
    (hmem : s.focusableElements.any (fun el => el.same cur) = true)
    (hkey : cur.parentAttr = some key) (hkne : key ≠ "")
    (hchild : ∃ child ∈ s.focusableElements,
      attrEq child.childAttr key = true ∧ child.visible = true) :
    (triggerEnter s).onSelectLog = s.onSelectLog ∧
    ∃ c, (triggerEnter s).activeElement = some c ∧
      c ∈ s.focusableElements ∧ attrEq c.childAttr key = true ∧
      c.visible = true := by
  unfold triggerEnter handleEnterKey
  rw [hres]
  dsimp only
  simp only [if_pos hmem]
  unfold navigateToChildren
  rw [hkey]
  dsimp only
  have hkf : (key == "") = false := by simp [hkne]
  simp only [hkf]
  simp only [if_neg Bool.false_ne_true]
  obtain ⟨child, hchmem, hattr, hvis⟩ := hchild
  by_cases hstr : (s.focusableElements.filter (fun el =>
      attrEq el.childAttr key && el.visible && el.styleVisible)).isEmpty = true
  · rw [if_pos hstr]
    have hcfb : child ∈ s.focusableElements.filter
        (fun el => attrEq el.childAttr key && el.visible) :=
      List.mem_filter.mpr ⟨hchmem, by simp [hattr, hvis]⟩
    have hfbne : s.focusableElements.filter
        (fun el => attrEq el.childAttr key && el.visible) ≠ [] :=
      List.ne_nil_of_mem hcfb
    have hfbe : (s.focusableElements.filter
        (fun el => attrEq el.childAttr key && el.visible)).isEmpty = false := by
      cases hfb2 : (s.focusableElements.filter
          (fun el => attrEq el.childAttr key && el.visible)).isEmpty
      · rfl
      · rw [List.isEmpty_iff] at hfb2
        exact absurd hfb2 hfbne
    rw [if_neg (show ¬((s.focusableElements.filter
        (fun el => attrEq el.childAttr key && el.visible)).isEmpty = true)
      from by simp [hfbe])]
    obtain ⟨hok, t, hact, htin, hlog, -, -, -⟩ :=
      focusChild_success s (s.focusableElements.filter
          (fun el => attrEq el.childAttr key && el.visible)) key hfbne
        (fun c hc => by
          have := (List.mem_filter.mp hc).2
          simp only [Bool.and_eq_true] at this
          exact this.2)
        (fun p hp el hel hsame =>
          hcoh p hp el (List.mem_filter.mp hel).1 hsame)
    rw [if_neg (show ¬((!(focusChild s (s.focusableElements.filter
        (fun el => attrEq el.childAttr key && el.visible)) key).2) = true)
      from by simp [hok])]
    obtain ⟨hsub, hpred⟩ := List.mem_filter.mp htin
    simp only [Bool.and_eq_true] at hpred
    exact ⟨hlog, t, hact, hsub, hpred.1, hpred.2⟩
  · simp only [Bool.not_eq_true] at hstr
    rw [if_neg (show ¬((s.focusableElements.filter (fun el =>
        attrEq el.childAttr key && el.visible && el.styleVisible)).isEmpty =
          true) from by simp [hstr])]
    have hne : s.focusableElements.filter (fun el =>
        attrEq el.childAttr key && el.visible && el.styleVisible) ≠ [] := by
      intro h0
      rw [h0] at hstr
      simp at hstr
    obtain ⟨hok, t, hact, htin, hlog, -, -, -⟩ :=
      focusChild_success s (s.focusableElements.filter (fun el =>
          attrEq el.childAttr key && el.visible && el.styleVisible)) key hne
        (fun c hc => by
          have := (List.mem_filter.mp hc).2
          simp only [Bool.and_eq_true] at this
          exact this.1.2)
        (fun p hp el hel hsame =>
          hcoh p hp el (List.mem_filter.mp hel).1 hsame)
    rw [if_neg (show ¬((!(focusChild s (s.focusableElements.filter
        (fun el => attrEq el.childAttr key && el.visible && el.styleVisible))
        key).2) = true) from by simp [hok])]
    obtain ⟨hsub, hpred⟩ := List.mem_filter.mp htin
    simp only [Bool.and_eq_true] at hpred
    exact ⟨hlog, t, hact, hsub, hpred.1.1, hpred.1.2⟩

/-- C4 witness: the theorem applied at the concrete group state (head
focused, two visible children, empty map). -/
theorem claim4_witness :
    ((∀ p ∈ groupState.lastParentMap, ∀ el ∈ groupState.focusableElements,
        el.same p.2 = true → el = p.2) ∧
      resolveCurrent groupState = some gHead ∧
      groupState.focusableElements.any (fun el => el.same gHead) = true ∧
      gHead.parentAttr = some "g" ∧
      (∃ child ∈ groupState.focusableElements,
        attrEq child.childAttr "g" = true ∧ child.visible = true)) ∧
    ((triggerEnter groupState).onSelectLog = groupState.onSelectLog ∧
      ∃ c, (triggerEnter groupState).activeElement = some c ∧
        c ∈ groupState.focusableElements ∧ attrEq c.childAttr "g" = true ∧
        c.visible = true) :=
  ⟨⟨by decide, by decide, by decide, by decide, ⟨gChild1, by decide⟩⟩,
    claim4_select_drills_in groupState gHead "g" (by decide) (by decide)
      (by decide) (by decide) (by decide) ⟨gChild1, by decide⟩⟩

/-- A group engine state that already remembers the second child in its
Last-Visited-Child map. -/
def memState : EngineState :=
  { groupState with lastParentMap := [("g", gChild2)] }

/-- C5: on drill-in, the focused child is the group's Last-Visited-Child
entry when that entry is still among the candidate visible children,
otherwise the first candidate in Region Set order; every successful
drill-in rewrites the map entry to the newly focused child.
Consequently, in the concrete scenario, drilling into the group (Enter on
the head focuses the first child), moving right to the second child
(whose focus event updates the map), escaping with `back()`, and drilling
in again focuses that same second child. -/
theorem claim5_drill_in_memory :
    (∀ (s : EngineState) (cs : List Region) (key : String),
      cs ≠ [] → (∀ c ∈ cs, c.visible = true) →
      (∀ p ∈ s.lastParentMap, ∀ el ∈ cs, el.same p.2 = true → el = p.2) →
      (focusChild s cs key).2 = true ∧
      (∀ c, mapGet s.lastParentMap key = some c →
        cs.any (fun el => el.same c) = true →
        (focusChild s cs key).1.activeElement = some c) ∧
      ((mapGet s.lastParentMap key = none ∨
        (∀ c, mapGet s.lastParentMap key = some c →
          cs.any (fun el => el.same c) = false)) →
        (focusChild s cs key).1.activeElement = cs.head?) ∧
      mapGet (focusChild s cs key).1.lastParentMap key =
        (focusChild s cs key).1.activeElement)
    ∧ ((triggerEnter (triggerBack (triggerArrowRight
          (triggerEnter groupState)))).activeElement = some gChild2 ∧
        mapGet (triggerEnter (triggerBack (triggerArrowRight
          (triggerEnter groupState)))).lastParentMap "g" = some gChild2) := by
  constructor
  · intro s cs key hne hall hcoh
    obtain ⟨hok, t, hact, htin, hlog, hmap, hback, hhead⟩ :=
      focusChild_success s cs key hne hall hcoh
    refine ⟨hok, ?_, ?_, ?_⟩
    · intro c hc hcany
      rw [hact, hback c hc hcany]
    · intro hcase
      rw [hact]
      exact (hhead hcase).symm
    · rw [hact, hmap]
  · constructor <;> decide

/-- C5 witness: the drill-in half applied at a concrete state remembering
the second child: drilling in focuses exactly that remembered child. -/
theorem claim5_witness :
    (([gChild1, gChild2] : List Region) ≠ [] ∧
      (∀ c ∈ [gChild1, gChild2], c.visible = true) ∧
      (∀ p ∈ memState.lastParentMap, ∀ el ∈ [gChild1, gChild2],
        el.same p.2 = true → el = p.2)) ∧
    ((focusChild memState [gChild1, gChild2] "g").2 = true ∧
      (∀ c, mapGet memState.lastParentMap "g" = some c →
        [gChild1, gChild2].any (fun el => el.same c) = true →
        (focusChild memState [gChild1, gChild2] "g").1.activeElement =
          some c) ∧
      ((mapGet memState.lastParentMap "g" = none ∨
        (∀ c, mapGet memState.lastParentMap "g" = some c →
          [gChild1, gChild2].any (fun el => el.same c) = false)) →
        (focusChild memState [gChild1, gChild2] "g").1.activeElement =
          [gChild1, gChild2].head?) ∧
      mapGet (focusChild memState [gChild1, gChild2] "g").1.lastParentMap
          "g" =
        (focusChild memState [gChild1, gChild2] "g").1.activeElement) :=
  ⟨⟨by decide, by decide, by decide⟩,
    claim5_drill_in_memory.1 memState [gChild1, gChild2] "g" (by decide)
      (by decide) (by decide)⟩
